import Mathlib

/-!
# Signature locked single outputs: codec and validator chain

A shallow embedding of `output.go` (package `iota`): the binary and JSON codec
of `SigLockedSingleOutput` and the output validators run by `ValidateOutputs`.

Conventions of the embedding

* `uint64` values are natural numbers; every `uint64` operation of the source
  that can wrap is written with an explicit `% 2 ^ 64`.
* `int` is the 64 bit signed integer of the usual Go targets.
* A closure that captures a variable (`sum`, `set`) becomes a function taking
  the captured value and returning its new value next to the Go result.
* A Go `error` result is an `Option Err` (`none` is `nil`); the text that
  `fmt.Errorf` puts around a wrapped error is dropped, the wrapped sentinel
  and the integers formatted into the message are kept.
* A run-time panic (slice bounds out of range) is the outcome `none` of a
  function returning `Option`.
-/

namespace Iota

/-- One octet. -/
abbrev Byte := Fin 256

/-- The Go type `json.RawMessage`, a byte slice holding a nested document. -/
abbrev RawMessage := List Byte

/-- The errors that `output.go` returns, one constructor for each sentinel it
wraps, with the integers that the message is formatted with
(`ErrUnknownOutputTypeOf` is `ErrUnknownOutputType` wrapped with the type, as
`OutputSelector` does). The last constructor stands for any error of a
declaration outside `output.go`. -/
inductive Err where
  | ErrDepositAmountMustBeGreaterThanZero (index : Int)
  | ErrOutputDepositsMoreThanTotalSupply (index : Int)
  | ErrOutputsSumExceedsTotalSupply (index : Int)
  | ErrOutputAddrNotUnique (j index : Int)
  | ErrUnknownOutputType
  | ErrUnknownOutputTypeOf (outputType : Nat)
  | ErrUnknownAddrType
  | ErrDeserializationNotEnoughData
  | ErrDeserializationTypeMismatch
  | external (code : Nat)
  deriving DecidableEq, Repr

/-- The values of the Go interface `Serializable` that `output.go` tells
apart: the two address kinds named in its type switches (byte arrays, read
through `addr[:]`), the output itself, and any other implementation. -/
inductive Serializable where
  | WOTSAddress (raw : List Byte)
  | Ed25519Address (raw : List Byte)
  | SigLockedSingleOutput (Address : Serializable) (Amount : Nat)
  | other (id : Nat)
  deriving DecidableEq, Repr

/-- The Go struct `SigLockedSingleOutput`. -/
structure SigLockedSingleOutput where
  Address : Serializable
  Amount : Nat
  deriving DecidableEq, Repr

/-- Modelled from the spec: the Go type `DeSerializationMode`, declared
outside `output.go`; the spec describes a mode as carrying a "strict" flag,
taken here as a bit of a bit set. -/
abbrev DeSerializationMode := Nat

/-- Modelled from the spec: the "strict" flag of a mode, which makes the
codec run its validation inline. -/
def DeSeriModePerformValidation : DeSerializationMode := 1

/-- Modelled from the spec: `sm.HasMode(mode)`, whether the flag `mode` is set
in `sm`. -/
def DeSerializationMode.HasMode (sm mode : DeSerializationMode) : Bool :=
  sm &&& mode != 0

/-- The declarations of package `iota` that `output.go` uses and that are
declared outside it, taken as parameters of the embedding. -/
structure Externals where
  /-- The constant `TokenSupply`. -/
  TokenSupply : Nat
  /-- The length of the array type `WOTSAddress`. -/
  WOTSAddressBytesLength : Nat
  /-- The length of the array type `Ed25519Address`. -/
  Ed25519AddressBytesLength : Nat
  /-- The constant `WOTSAddressSerializedBytesSize`. -/
  WOTSAddressSerializedBytesSize : Nat
  /-- The constant `Ed25519AddressSerializedBytesSize`. -/
  Ed25519AddressSerializedBytesSize : Nat
  /-- The call `DeserializeObject(data, deSeriMode, TypeDenotationByte, AddressSelector)`:
  the decoded address and the number of bytes read. -/
  DeserializeObject : List Byte → DeSerializationMode → Except Err (Serializable × Nat)
  /-- The method `Serialize` of an address. -/
  AddressSerialize : Serializable → DeSerializationMode → Except Err (List Byte)
  /-- The method `MarshalJSON` of an address. -/
  AddressMarshalJSON : Serializable → Except Err RawMessage
  /-- The call `DeserializeObjectFromJSON(j.Address, jsonaddressselector)`
  followed by `ToSerializable()` on its result. -/
  AddressFromJSON : Option RawMessage → Except Err Serializable

/-- The values that the Go types exclude are excluded here by a predicate:
an address array has the length of its type, an amount is a `uint64`. -/
def Serializable.WellTyped (c : Externals) : Serializable → Prop
  | .WOTSAddress raw => raw.length = c.WOTSAddressBytesLength
  | .Ed25519Address raw => raw.length = c.Ed25519AddressBytesLength
  | .SigLockedSingleOutput a n => a.WellTyped c ∧ n < 2 ^ 64
  | .other _ => True

/-- The address is of one of the two kinds `output.go` names. -/
def Serializable.IsKnownAddress : Serializable → Bool
  | .WOTSAddress _ => true
  | .Ed25519Address _ => true
  | _ => false

/-- Modelled from the spec: `SmallTypeDenotationByteSize`, the "1 tag byte". -/
def SmallTypeDenotationByteSize : Nat := 1

/-- Modelled from the spec: `UInt64ByteSize`, the "8 amount bytes". -/
def UInt64ByteSize : Nat := 8

/-- The constant `OutputSigLockedSingleOutput` (`iota` at the head of the
constant block). -/
def OutputSigLockedSingleOutput : Byte := 0

/-- The constant `SigLockedSingleOutputWOTSAddrBytesSize`. -/
def SigLockedSingleOutputWOTSAddrBytesSize (c : Externals) : Nat :=
  SmallTypeDenotationByteSize + c.WOTSAddressSerializedBytesSize + UInt64ByteSize

/-- The constant `SigLockedSingleOutputEd25519AddrBytesSize`. -/
def SigLockedSingleOutputEd25519AddrBytesSize (c : Externals) : Nat :=
  SmallTypeDenotationByteSize + c.Ed25519AddressSerializedBytesSize + UInt64ByteSize

/-- The constant `SigLockedSingleOutputBytesMinSize`. -/
def SigLockedSingleOutputBytesMinSize (c : Externals) : Nat :=
  SigLockedSingleOutputEd25519AddrBytesSize c

/-- The constant `SigLockedSingleOutputAddressOffset`. -/
def SigLockedSingleOutputAddressOffset : Nat := SmallTypeDenotationByteSize

/-! ## Validators -/

/-- The body of the closure returned by `OutputsDepositAmountValidator`: from
the captured `sum`, the index and the output to the new `sum` and the error. -/
def OutputsDepositAmountValidator.call (c : Externals) (sum : Nat) (index : Int)
    (dep : SigLockedSingleOutput) : Nat × Option Err :=
  if dep.Amount = 0 then
    (sum, some (.ErrDepositAmountMustBeGreaterThanZero index))
  else if dep.Amount > c.TokenSupply then
    (sum, some (.ErrOutputDepositsMoreThanTotalSupply index))
  else if (sum + dep.Amount) % 2 ^ 64 > c.TokenSupply then
    (sum, some (.ErrOutputsSumExceedsTotalSupply index))
  else if index ≠ -1 then
    ((sum + dep.Amount) % 2 ^ 64, none)
  else
    (sum, none)

/-- The captured map `set` of `OutputsAddrUniqueValidator`, as an association
list from key to index. -/
abbrev AddrSet := List (List Byte × Int)

/-- The string `k` built in `OutputsAddrUniqueValidator`: the raw bytes of a
WOTS or Ed25519 address, empty for any other value (`strings.Builder.Write`
never returns an error). -/
def OutputsAddrUniqueValidator.key : Serializable → List Byte
  | .WOTSAddress raw => raw
  | .Ed25519Address raw => raw
  | _ => []

/-- The body of the closure returned by `OutputsAddrUniqueValidator`. -/
def OutputsAddrUniqueValidator.call (set : AddrSet) (index : Int)
    (dep : SigLockedSingleOutput) : AddrSet × Option Err :=
  let k := OutputsAddrUniqueValidator.key dep.Address
  match set.lookup k with
  | some j => (set, some (.ErrOutputAddrNotUnique j index))
  | none => ((k, index) :: set, none)

/-- The Go type `OutputsValidatorFunc`: a function value together with the
variables it captured. -/
structure OutputsValidatorFunc where
  /-- The type of the captured variables. -/
  State : Type
  /-- Their present value. -/
  st : State
  /-- The function body. -/
  call : State → Int → SigLockedSingleOutput → State × Option Err

/-- One call `f(index, output)`: the validator afterwards and the error. -/
def OutputsValidatorFunc.invoke (f : OutputsValidatorFunc) (index : Int)
    (dep : SigLockedSingleOutput) : OutputsValidatorFunc × Option Err :=
  ({ f with st := (f.call f.st index dep).1 }, (f.call f.st index dep).2)

/-- The closure of `OutputsDepositAmountValidator` at the moment its captured
`sum` has the given value. -/
def OutputsDepositAmountValidator.withSum (c : Externals) (sum : Nat) : OutputsValidatorFunc :=
  { State := Nat, st := sum, call := OutputsDepositAmountValidator.call c }

/-- The function `OutputsDepositAmountValidator`: a validator whose `sum` is 0. -/
def OutputsDepositAmountValidator (c : Externals) : OutputsValidatorFunc :=
  OutputsDepositAmountValidator.withSum c 0

/-- The closure of `OutputsAddrUniqueValidator` at the moment its captured
`set` has the given value. -/
def OutputsAddrUniqueValidator.withSet (set : AddrSet) : OutputsValidatorFunc :=
  { State := AddrSet, st := set, call := OutputsAddrUniqueValidator.call }

/-- The function `OutputsAddrUniqueValidator`: a validator whose `set` is empty. -/
def OutputsAddrUniqueValidator : OutputsValidatorFunc :=
  OutputsAddrUniqueValidator.withSet []

/-- The type assertion `output.(*SigLockedSingleOutput)`. -/
def Serializable.asSigLockedSingleOutput : Serializable → Option Iota.SigLockedSingleOutput
  | .SigLockedSingleOutput a n => some { Address := a, Amount := n }
  | _ => none

/-- The interface value holding an output. -/
def SigLockedSingleOutput.toSerializable (s : SigLockedSingleOutput) : Serializable :=
  .SigLockedSingleOutput s.Address s.Amount

/-- The inner loop of `ValidateOutputs`, `for _, f := range funcs`, on the
output `dep` at index `i`: the validators afterwards and the error. -/
def ValidateOutputs.inner (i : Int) (dep : SigLockedSingleOutput) :
    List OutputsValidatorFunc → List OutputsValidatorFunc × Option Err
  | [] => ([], none)
  | f :: fs =>
    match (f.invoke i dep).2 with
    | some err => ((f.invoke i dep).1 :: fs, some err)
    | none =>
      ((f.invoke i dep).1 :: (ValidateOutputs.inner i dep fs).1,
        (ValidateOutputs.inner i dep fs).2)

/-- The outer loop of `ValidateOutputs`, `for i, output := range outputs`,
from index `i` on. -/
def ValidateOutputs.loop :
    Nat → List Serializable → List OutputsValidatorFunc → List OutputsValidatorFunc × Option Err
  | _, [], funcs => (funcs, none)
  | i, output :: rest, funcs =>
    match output.asSigLockedSingleOutput with
    | none => (funcs, some .ErrUnknownOutputType)
    | some dep =>
      match (ValidateOutputs.inner i dep funcs).2 with
      | some err => ((ValidateOutputs.inner i dep funcs).1, some err)
      | none => ValidateOutputs.loop (i + 1) rest (ValidateOutputs.inner i dep funcs).1

/-- The function `ValidateOutputs`: the validators afterwards and the error. -/
def ValidateOutputs (outputs : List Serializable) (funcs : List OutputsValidatorFunc) :
    List OutputsValidatorFunc × Option Err :=
  ValidateOutputs.loop 0 outputs funcs

/-! ## Binary codec -/

/-- Modelled from the spec: the helper `checkMinByteLength(min, length)`,
a malformed-input error when the input is shorter than the minimum size. -/
def checkMinByteLength (min length : Nat) : Option Err :=
  if length < min then some .ErrDeserializationNotEnoughData else none

/-- Modelled from the spec: the helper `checkTypeByte(data, shouldTypeByte)`,
"first byte must equal the expected type tag, else fail with a type-mismatch
error"; data without a first byte is malformed input. -/
def checkTypeByte (data : List Byte) (shouldTypeByte : Byte) : Option Err :=
  match data with
  | [] => some .ErrDeserializationNotEnoughData
  | b :: _ => if b ≠ shouldTypeByte then some .ErrDeserializationTypeMismatch else none

/-- The slice expression `data[k:]`; it panics when `k` exceeds `len(data)`. -/
def sliceFrom (data : List Byte) (k : Nat) : Option (List Byte) :=
  if k ≤ data.length then some (data.drop k) else none

/-- The builtin `make([]byte, n)`. -/
def make (n : Nat) : List Byte := List.replicate n 0

/-- The builtin `copy(dst, src)`: the content of `dst` afterwards. It copies
`min(len(dst), len(src))` bytes. -/
def copy (dst src : List Byte) : List Byte :=
  src.take dst.length ++ dst.drop src.length

/-- The low byte of a number, the conversion `byte(v)`. -/
def byteOf (v : Nat) : Byte := ⟨v % 256, Nat.mod_lt v (by decide)⟩

/-- The library function `binary.LittleEndian.Uint64(b)`: the number whose
little-endian digits are the first 8 bytes; it panics on fewer than 8 bytes. -/
def LittleEndian.Uint64 (b : List Byte) : Option Nat :=
  if b.length < 8 then none
  else some ((b.take 8).foldr (fun x acc => x.val + 256 * acc) 0)

/-- The eight little-endian bytes of a `uint64`. -/
def LittleEndian.bytes (v : Nat) : List Byte :=
  [byteOf v, byteOf (v / 2 ^ 8), byteOf (v / 2 ^ 16), byteOf (v / 2 ^ 24),
   byteOf (v / 2 ^ 32), byteOf (v / 2 ^ 40), byteOf (v / 2 ^ 48), byteOf (v / 2 ^ 56)]

/-- The library function `binary.LittleEndian.PutUint64(b, v)`: the content
of `b` afterwards, its first 8 bytes overwritten. -/
def LittleEndian.PutUint64 (b : List Byte) (v : Nat) : List Byte :=
  LittleEndian.bytes v ++ b.drop 8

/-- What a call of `Deserialize` leaves behind: the captured `sum` of the
package-level `outputAmountValidator`, the receiver `*s`, and the two results. -/
structure DeserializeReturn where
  sum : Nat
  s : SigLockedSingleOutput
  n : Nat
  err : Option Err
  deriving DecidableEq, Repr

/-- The method `(*SigLockedSingleOutput).Deserialize`. The first argument is
the captured `sum` of the package-level `outputAmountValidator`, the second
the receiver before the call. The outcome `none` is a panic. -/
def SigLockedSingleOutput.Deserialize (c : Externals) (sum : Nat) (s : SigLockedSingleOutput)
    (data : List Byte) (deSeriMode : DeSerializationMode) : Option DeserializeReturn :=
  match
    (if deSeriMode.HasMode DeSeriModePerformValidation then
      match checkMinByteLength (SigLockedSingleOutputBytesMinSize c) data.length with
      | some err => some err
      | none => checkTypeByte data OutputSigLockedSingleOutput
    else none) with
  | some err => some { sum := sum, s := s, n := 0, err := some err }
  | none =>
    match sliceFrom data SmallTypeDenotationByteSize with
    | none => none
    | some data1 =>
      match c.DeserializeObject data1 deSeriMode with
      | .error err => some { sum := sum, s := s, n := 0, err := some err }
      | .ok (addr, addrBytesRead) =>
        match sliceFrom data1 addrBytesRead with
        | none => none
        | some data2 =>
          if data2.length < UInt64ByteSize then
            some { sum := sum, s := { s with Address := addr }, n := 0,
                   err := some .ErrDeserializationNotEnoughData }
          else
            match LittleEndian.Uint64 data2 with
            | none => none
            | some amount =>
              if deSeriMode.HasMode DeSeriModePerformValidation then
                match OutputsDepositAmountValidator.call c sum (-1)
                    { Address := addr, Amount := amount } with
                | (sum1, some err) =>
                  some { sum := sum1, s := { Address := addr, Amount := amount }, n := 0,
                         err := some err }
                | (sum1, none) =>
                  some { sum := sum1, s := { Address := addr, Amount := amount },
                         n := SmallTypeDenotationByteSize + addrBytesRead + UInt64ByteSize,
                         err := none }
              else
                some { sum := sum, s := { Address := addr, Amount := amount },
                       n := SmallTypeDenotationByteSize + addrBytesRead + UInt64ByteSize,
                       err := none }

/-- What a call of `Serialize` leaves behind: the captured `sum` of the
package-level `outputAmountValidator` and the two results (a nil slice is
the empty list). -/
structure SerializeReturn where
  sum : Nat
  data : List Byte
  err : Option Err
  deriving DecidableEq, Repr

/-- The buffer `b` that `Serialize` returns on its last line, from the
allocated size and the address bytes: `b[0]` is set, the address bytes are
copied to `b[1:]`, the amount is put into `b[len(b)-8:]`. Each allocated size
is at least 9, so both index expressions are in range. -/
def SigLockedSingleOutput.Serialize.fill (size : Nat) (addrBytes : List Byte) (amount : Nat) :
    List Byte :=
  let b0 := make size
  let b1 := b0.set 0 OutputSigLockedSingleOutput
  let b2 := b1.take SmallTypeDenotationByteSize ++ copy (b1.drop SmallTypeDenotationByteSize) addrBytes
  b2.take (b2.length - UInt64ByteSize) ++
    LittleEndian.PutUint64 (b2.drop (b2.length - UInt64ByteSize)) amount

/-- The method `(*SigLockedSingleOutput).Serialize`. The first argument is
the captured `sum` of the package-level `outputAmountValidator`. -/
def SigLockedSingleOutput.Serialize (c : Externals) (sum : Nat) (s : SigLockedSingleOutput)
    (deSeriMode : DeSerializationMode) : SerializeReturn :=
  let v : Nat × Option Err :=
    if deSeriMode.HasMode DeSeriModePerformValidation then
      OutputsDepositAmountValidator.call c sum (-1) s
    else (sum, none)
  match v.2 with
  | some err => { sum := v.1, data := [], err := some err }
  | none =>
    let size : Option Nat :=
      match s.Address with
      | .WOTSAddress _ => some (SigLockedSingleOutputWOTSAddrBytesSize c)
      | .Ed25519Address _ => some (SigLockedSingleOutputEd25519AddrBytesSize c)
      | _ => none
    match size with
    | none => { sum := v.1, data := [], err := some .ErrUnknownAddrType }
    | some size =>
      match c.AddressSerialize s.Address deSeriMode with
      | .error err => { sum := v.1, data := [], err := some err }
      | .ok addrBytes =>
        { sum := v.1, data := SigLockedSingleOutput.Serialize.fill size addrBytes s.Amount,
          err := none }

/-! ## JSON codec

The text that `encoding/json` writes and reads is not modelled: a document is
the value of the struct `jsonsiglockedsingleoutput` that `json.Marshal` is
given and that `json.Unmarshal` fills. Where the error return of
`json.Unmarshal` matters, the function is an argument
(`SigLockedSingleOutput.UnmarshalJSON.ofBytes`). -/

/-- The Go struct `jsonsiglockedsingleoutput`; `Ty` is its field `Type`, and
a nil `Address` pointer is `none`. -/
structure jsonsiglockedsingleoutput where
  Ty : Int
  Address : Option RawMessage
  Amount : Int
  deriving DecidableEq, Repr

/-- The conversion `int(x)` of a `uint64`. -/
def intOfUint64 (x : Nat) : Int :=
  if x % 2 ^ 64 < 2 ^ 63 then ((x % 2 ^ 64 : Nat) : Int) else ((x % 2 ^ 64 : Nat) : Int) - 2 ^ 64

/-- The conversion `uint64(i)` of an `int`. -/
def uint64OfInt (i : Int) : Nat := (i % 2 ^ 64).toNat

/-- The method `(*SigLockedSingleOutput).MarshalJSON`, up to the struct
handed to `json.Marshal`. -/
def SigLockedSingleOutput.MarshalJSON (c : Externals) (s : SigLockedSingleOutput) :
    Except Err jsonsiglockedsingleoutput :=
  match c.AddressMarshalJSON s.Address with
  | .error err => .error err
  | .ok addrJsonBytes =>
    .ok { Address := some addrJsonBytes, Amount := intOfUint64 s.Amount,
          Ty := (OutputSigLockedSingleOutput.val : Int) }

/-- The method `(*jsonsiglockedsingleoutput).ToSerializable`. -/
def jsonsiglockedsingleoutput.ToSerializable (c : Externals) (j : jsonsiglockedsingleoutput) :
    Except Err Serializable :=
  match c.AddressFromJSON j.Address with
  | .error err => .error err
  | .ok addr => .ok (.SigLockedSingleOutput addr (uint64OfInt j.Amount))

/-- The method `(*SigLockedSingleOutput).UnmarshalJSON` from its second
statement on (`seri, err := jsonDep.ToSerializable()` to the end), on the
struct that a successful `json.Unmarshal` has filled: the receiver afterwards
and the error. The first statement, `json.Unmarshal` with its error return,
is added in `SigLockedSingleOutput.UnmarshalJSON.ofBytes`. The type assertion
on the result of `ToSerializable` cannot fail, as that result is always an
output; its failing branch is kept only to make the match total. -/
def SigLockedSingleOutput.UnmarshalJSON (c : Externals) (s : SigLockedSingleOutput)
    (jsonDep : jsonsiglockedsingleoutput) : SigLockedSingleOutput × Option Err :=
  match jsonDep.ToSerializable c with
  | .error err => (s, some err)
  | .ok seri =>
    match seri.asSigLockedSingleOutput with
    | some dep => (dep, none)
    | none => (s, some (.external 0))

/-- The values that the Go struct `jsonsiglockedsingleoutput` can hold: its
two `int` fields are 64 bit signed integers. -/
def jsonsiglockedsingleoutput.WellTyped (j : jsonsiglockedsingleoutput) : Prop :=
  -2 ^ 63 ≤ j.Ty ∧ j.Ty < 2 ^ 63 ∧ -2 ^ 63 ≤ j.Amount ∧ j.Amount < 2 ^ 63

/-- The whole method `(*SigLockedSingleOutput).UnmarshalJSON`, on the bytes of
a document: the receiver afterwards and the error. The library function
`json.Unmarshal(bytes, jsonDep)` is the argument `unmarshal`, which gives the
filled struct or the error; on an error the method returns it at once and the
receiver is untouched. -/
def SigLockedSingleOutput.UnmarshalJSON.ofBytes (c : Externals)
    (unmarshal : List Byte → Except Err jsonsiglockedsingleoutput)
    (s : SigLockedSingleOutput) (bytes : List Byte) : SigLockedSingleOutput × Option Err :=
  match unmarshal bytes with
  | .error err => (s, some err)
  | .ok jsonDep => SigLockedSingleOutput.UnmarshalJSON c s jsonDep

/-! ## An instance of the parameters

Addresses are encoded as a kind byte followed by the raw bytes of the array,
WOTS (kind 0) with 49 and Ed25519 (kind 1) with 32 raw bytes; the supply is
2779530283277761. The theorems below hold for every instance that meets their
hypotheses; this one shows that the hypotheses can be met. -/

/-- The address decoder of the instance: the kind byte selects the address
type, whose raw bytes are copied from the bytes after it. -/
def sampleDeserializeObject (data : List Byte) (deSeriMode : DeSerializationMode) :
    Except Err (Serializable × Nat) :=
  if data.length < 2 then .error .ErrDeserializationNotEnoughData
  else
    match data.head? with
    | some ⟨0, _⟩ =>
      if deSeriMode.HasMode DeSeriModePerformValidation ∧ data.length < 50 then
        .error .ErrDeserializationNotEnoughData
      else .ok (.WOTSAddress (copy (make 49) (data.drop 1)), 50)
    | some ⟨1, _⟩ =>
      if deSeriMode.HasMode DeSeriModePerformValidation ∧ data.length < 33 then
        .error .ErrDeserializationNotEnoughData
      else .ok (.Ed25519Address (copy (make 32) (data.drop 1)), 33)
    | _ => .error .ErrUnknownAddrType

/-- The address encoder of the instance. -/
def sampleAddressSerialize (a : Serializable) (_ : DeSerializationMode) :
    Except Err (List Byte) :=
  match a with
  | .WOTSAddress raw => .ok (0 :: copy (make 49) raw)
  | .Ed25519Address raw => .ok (1 :: copy (make 32) raw)
  | _ => .error (.external 1)

/-- The nested address document of the instance: kind byte and raw bytes. -/
def sampleAddressMarshalJSON (a : Serializable) : Except Err RawMessage :=
  match a with
  | .WOTSAddress raw => .ok (0 :: raw)
  | .Ed25519Address raw => .ok (1 :: raw)
  | _ => .error (.external 2)

/-- The decoder of the nested address document of the instance. -/
def sampleAddressFromJSON (m : Option RawMessage) : Except Err Serializable :=
  match m with
  | some (⟨0, _⟩ :: raw) =>
    if raw.length = 49 then .ok (.WOTSAddress raw) else .error (.external 3)
  | some (⟨1, _⟩ :: raw) =>
    if raw.length = 32 then .ok (.Ed25519Address raw) else .error (.external 3)
  | _ => .error .ErrUnknownAddrType

/-- The instance of the parameters. -/
def sampleExternals : Externals where
  TokenSupply := 2779530283277761
  WOTSAddressBytesLength := 49
  Ed25519AddressBytesLength := 32
  WOTSAddressSerializedBytesSize := 50
  Ed25519AddressSerializedBytesSize := 33
  DeserializeObject := sampleDeserializeObject
  AddressSerialize := sampleAddressSerialize
  AddressMarshalJSON := sampleAddressMarshalJSON
  AddressFromJSON := sampleAddressFromJSON

/-- An Ed25519 address of the instance. -/
def sampleEd25519 : Serializable := .Ed25519Address (List.replicate 32 7)

/-- A WOTS address of the instance. -/
def sampleWOTS : Serializable := .WOTSAddress (List.replicate 49 9)

/-! ## What the codec asks of the address kinds

The address encoders and decoders are parameters; the properties below are
the part of their contract that the codec of the output relies on. -/

/-- The serialized size of an address, fixed by its kind. -/
def Externals.addressSize (c : Externals) : Serializable → Nat
  | .WOTSAddress _ => c.WOTSAddressSerializedBytesSize
  | .Ed25519Address _ => c.Ed25519AddressSerializedBytesSize
  | _ => 0

/-- An address of a known kind serializes to as many bytes as the constant of
its kind says. -/
def Externals.AddressFixedSize (c : Externals) : Prop :=
  ∀ a mode bs, a.IsKnownAddress = true → a.WellTyped c →
    c.AddressSerialize a mode = .ok bs → bs.length = c.addressSize a

/-- An address of a known kind can be serialized. -/
def Externals.AddressSerializes (c : Externals) : Prop :=
  ∀ a mode, a.IsKnownAddress = true → a.WellTyped c →
    ∃ bs, c.AddressSerialize a mode = .ok bs

/-- The serialization of an address of a known kind, followed by any bytes,
is decoded to that address, reading just the bytes of the serialization. -/
def Externals.AddressRoundTrip (c : Externals) : Prop :=
  ∀ a mode bs rest, a.IsKnownAddress = true → a.WellTyped c →
    c.AddressSerialize a mode = .ok bs →
    c.DeserializeObject (bs ++ rest) mode = .ok (a, bs.length)

/-- The JSON document of an address of a known kind is decoded to that
address. -/
def Externals.AddressJSONRoundTrip (c : Externals) : Prop :=
  ∀ a, a.IsKnownAddress = true → a.WellTyped c →
    ∃ m, c.AddressMarshalJSON a = .ok m ∧ c.AddressFromJSON (some m) = .ok a

/-! ## The content of the address set -/

/-- The index of the first occurrence of a key in a list (the length of the
list when there is none). -/
def firstIndex (k : List Byte) : List (List Byte) → Nat
  | [] => 0
  | x :: xs => if x = k then 0 else firstIndex k xs + 1

/-- The map `set` holds exactly the keys of the list, each with the index of
its first occurrence. -/
def AddrSet.Holds (set : AddrSet) (keys : List (List Byte)) : Prop :=
  ∀ k, set.lookup k = if k ∈ keys then some (firstIndex k keys : Int) else none

/-! ## The order of invocations, from the description of the chain runner

"Applies every validator to every record in ascending index order,
short-circuiting the whole pass on the first failure." -/

/-- The invocations `(i, j)` of validator `j` on record `i`, for `n` records
and `m` validators, in lexicographic order. -/
def invocationOrder (n m : Nat) : List (Nat × Nat) :=
  (List.range' 0 n).flatMap (fun i => (List.range' 0 m).map (fun j => (i, j)))

/-- The invocations of a list made one after the other, each on the validators
as the earlier ones left them, up to and including the first one that fails:
the validators afterwards and the error of that invocation. -/
def firstFailure (deps : List SigLockedSingleOutput) :
    List (Nat × Nat) → List OutputsValidatorFunc → List OutputsValidatorFunc × Option Err
  | [], funcs => (funcs, none)
  | (i, j) :: rest, funcs =>
    match deps[i]?, funcs[j]? with
    | some dep, some f =>
      match (f.invoke i dep).2 with
      | some err => (funcs.set j (f.invoke i dep).1, some err)
      | none => firstFailure deps rest (funcs.set j (f.invoke i dep).1)
    | _, _ => firstFailure deps rest funcs

/-! ## Selectors -/

/-- The conversion `byte(i)` of an `int`. -/
def byteOfInt (i : Int) : Byte := ⟨(i % 256).toNat, by omega⟩

/-- The new, empty values that the selectors return: `&SigLockedSingleOutput{}`
and `&jsonsiglockedsingleoutput{}`. -/
inductive Selected where
  | SigLockedSingleOutput
  | jsonsiglockedsingleoutput
  deriving DecidableEq, Repr

/-- The function `OutputSelector`, on a `uint32` type. -/
def OutputSelector (outputType : Nat) : Except Err Selected :=
  if byteOf outputType = OutputSigLockedSingleOutput then .ok .SigLockedSingleOutput
  else .error (.ErrUnknownOutputTypeOf outputType)

/-- The function `jsonoutputselector`, on an `int` type. -/
def jsonoutputselector (ty : Int) : Except Err Selected :=
  if byteOfInt ty = OutputSigLockedSingleOutput then .ok .jsonsiglockedsingleoutput
  else .error .ErrUnknownOutputType

/-! ## Decoding a prefix -/

/-- The address decoder looks only at the bytes it reports as read: when it
succeeds on an input that holds that many bytes, it gives the same result on
that input followed by any bytes. -/
def Externals.AddressPrefixStable (c : Externals) : Prop :=
  ∀ data mode a k extra, c.DeserializeObject data mode = .ok (a, k) → k ≤ data.length →
    c.DeserializeObject (data ++ extra) mode = .ok (a, k)

/-! ## Sequences of codec calls -/

/-- A call of one of the two methods that use the package-level
`outputAmountValidator`. -/
inductive CodecCall where
  | serialize (s : SigLockedSingleOutput) (deSeriMode : DeSerializationMode)
  | deserialize (s : SigLockedSingleOutput) (data : List Byte) (deSeriMode : DeSerializationMode)

/-- The captured `sum` of the package-level `outputAmountValidator` after a
list of codec calls made one after the other; `none` when one of them panics. -/
def packageSumAfter (c : Externals) (sum : Nat) : List CodecCall → Option Nat
  | [] => some sum
  | .serialize s mode :: rest =>
    packageSumAfter c (SigLockedSingleOutput.Serialize c sum s mode).sum rest
  | .deserialize s data mode :: rest =>
    match SigLockedSingleOutput.Deserialize c sum s data mode with
    | none => none
    | some r => packageSumAfter c r.sum rest

/-! ## Sequences of calls -/

/-- The calls `f(index, output)` of a list made one after the other on one
validator: the validator afterwards and the error of each call. -/
def OutputsValidatorFunc.invokeAll (f : OutputsValidatorFunc) :
    List (Int × SigLockedSingleOutput) → OutputsValidatorFunc × List (Option Err)
  | [] => (f, [])
  | (index, dep) :: rest =>
    (((f.invoke index dep).1.invokeAll rest).1,
      (f.invoke index dep).2 :: ((f.invoke index dep).1.invokeAll rest).2)

/-! ## The deposit amount validator -/

theorem depositCall_sentinel_sum (c : Externals) (sum : Nat) (dep : SigLockedSingleOutput) :
    (OutputsDepositAmountValidator.call c sum (-1) dep).1 = sum := by
  unfold OutputsDepositAmountValidator.call
  split_ifs <;> first | rfl | contradiction

theorem depositCall_ok_iff (c : Externals) (sum : Nat) (index : Int)
    (dep : SigLockedSingleOutput) :
    (OutputsDepositAmountValidator.call c sum index dep).2 = none ↔
      dep.Amount ≠ 0 ∧ dep.Amount ≤ c.TokenSupply ∧
        (sum + dep.Amount) % 2 ^ 64 ≤ c.TokenSupply := by
  unfold OutputsDepositAmountValidator.call
  split_ifs
  all_goals simp
  all_goals omega

theorem depositCall_ok_sum (c : Externals) (sum : Nat) (index : Int)
    (dep : SigLockedSingleOutput) (hi : index ≠ -1)
    (hok : (OutputsDepositAmountValidator.call c sum index dep).2 = none) :
    (OutputsDepositAmountValidator.call c sum index dep).1 = (sum + dep.Amount) % 2 ^ 64 := by
  unfold OutputsDepositAmountValidator.call at hok ⊢
  split_ifs at hok ⊢
  simp_all

theorem depositCall_sentinel_fresh (c : Externals) (dep : SigLockedSingleOutput)
    (h1 : 1 ≤ dep.Amount) (h2 : dep.Amount ≤ c.TokenSupply) (h3 : dep.Amount < 2 ^ 64) :
    OutputsDepositAmountValidator.call c 0 (-1) dep = (0, none) := by
  have hmod : (0 + dep.Amount) % 2 ^ 64 = dep.Amount := by
    rw [Nat.zero_add]; exact Nat.mod_eq_of_lt h3
  unfold OutputsDepositAmountValidator.call
  rw [hmod]
  have ha : ¬ dep.Amount = 0 := by omega
  have hb : ¬ dep.Amount > c.TokenSupply := by omega
  simp [ha, hb]

/-- C6: a record validated in isolation (index -1) by a deposit amount
validator whose sum is 0 gets the amount-must-be-positive error exactly when
its amount is 0, the amount-exceeds-supply error exactly when its amount is
above `TokenSupply`, and no error otherwise; so amount 1 and amount
`TokenSupply` pass (for a supply of at least 1) and `TokenSupply + 1` fails
with amount-exceeds-supply. -/
theorem C6_single_record_amount_check (c : Externals) (dep : SigLockedSingleOutput)
    (hty : dep.Amount < 2 ^ 64) :
    (((OutputsDepositAmountValidator c).invoke (-1) dep).2
        = some (.ErrDepositAmountMustBeGreaterThanZero (-1)) ↔ dep.Amount = 0) ∧
    (((OutputsDepositAmountValidator c).invoke (-1) dep).2
        = some (.ErrOutputDepositsMoreThanTotalSupply (-1)) ↔ dep.Amount > c.TokenSupply) ∧
    (((OutputsDepositAmountValidator c).invoke (-1) dep).2 = none
        ↔ (dep.Amount ≠ 0 ∧ dep.Amount ≤ c.TokenSupply)) ∧
    (1 ≤ c.TokenSupply →
      ((OutputsDepositAmountValidator c).invoke (-1) { dep with Amount := 1 }).2 = none) ∧
    (1 ≤ c.TokenSupply → c.TokenSupply < 2 ^ 64 →
      ((OutputsDepositAmountValidator c).invoke (-1)
        { dep with Amount := c.TokenSupply }).2 = none) ∧
    ((OutputsDepositAmountValidator c).invoke (-1) { dep with Amount := c.TokenSupply + 1 }).2
        = some (.ErrOutputDepositsMoreThanTotalSupply (-1)) := by
  have hmod : (0 + dep.Amount) % 2 ^ 64 = dep.Amount := by
    rw [Nat.zero_add]; exact Nat.mod_eq_of_lt hty
  refine ⟨?_, ?_, ?_, ?_, ?_, ?_⟩
  · simp only [OutputsValidatorFunc.invoke, OutputsDepositAmountValidator,
      OutputsDepositAmountValidator.withSum, OutputsDepositAmountValidator.call, hmod]
    split_ifs <;> simp_all
  · simp only [OutputsValidatorFunc.invoke, OutputsDepositAmountValidator,
      OutputsDepositAmountValidator.withSum, OutputsDepositAmountValidator.call, hmod]
    split_ifs <;> simp_all
  · simp only [OutputsValidatorFunc.invoke, OutputsDepositAmountValidator,
      OutputsDepositAmountValidator.withSum, OutputsDepositAmountValidator.call, hmod]
    split_ifs <;> simp_all
  · intro h1
    have := depositCall_sentinel_fresh c { dep with Amount := 1 } (by simp) (by simpa using h1)
      (by simp)
    simp [OutputsValidatorFunc.invoke, OutputsDepositAmountValidator,
      OutputsDepositAmountValidator.withSum, this]
  · intro h1 h2
    have := depositCall_sentinel_fresh c { dep with Amount := c.TokenSupply } (by simpa using h1)
      (by simp) (by simpa using h2)
    simp [OutputsValidatorFunc.invoke, OutputsDepositAmountValidator,
      OutputsDepositAmountValidator.withSum, this]
  · simp [OutputsValidatorFunc.invoke, OutputsDepositAmountValidator,
      OutputsDepositAmountValidator.withSum, OutputsDepositAmountValidator.call]

/-- C6 at the sample instance: amount 1 passes in isolation. -/
theorem C6_single_record_amount_check_witness :
    ((OutputsDepositAmountValidator sampleExternals).invoke (-1)
      { Address := sampleEd25519, Amount := 1 }).2 = none :=
  (C6_single_record_amount_check sampleExternals { Address := sampleEd25519, Amount := 1 }
    (by decide)).2.2.2.1 (by decide)

theorem deposit_invokeAll_sentinel (c : Externals) (dep : SigLockedSingleOutput)
    (h1 : 1 ≤ dep.Amount) (h2 : dep.Amount ≤ c.TokenSupply) (h3 : dep.Amount < 2 ^ 64)
    (n : Nat) :
    (OutputsDepositAmountValidator c).invokeAll (List.replicate n (-1, dep))
      = (OutputsDepositAmountValidator c, List.replicate n none) := by
  have hstep : (OutputsDepositAmountValidator c).invoke (-1) dep
      = (OutputsDepositAmountValidator c, none) := by
    simp [OutputsValidatorFunc.invoke, OutputsDepositAmountValidator,
      OutputsDepositAmountValidator.withSum, depositCall_sentinel_fresh c dep h1 h2 h3]
  induction n with
  | zero => rfl
  | succ n ih =>
    simp only [List.replicate_succ, OutputsValidatorFunc.invokeAll, hstep, ih]

theorem Serialize_sum (c : Externals) (sum : Nat) (s : SigLockedSingleOutput)
    (deSeriMode : DeSerializationMode) :
    (SigLockedSingleOutput.Serialize c sum s deSeriMode).sum = sum := by
  unfold SigLockedSingleOutput.Serialize
  have hv : (if deSeriMode.HasMode DeSeriModePerformValidation = true then
      OutputsDepositAmountValidator.call c sum (-1) s else (sum, none)).1 = sum := by
    split_ifs
    · exact depositCall_sentinel_sum c sum s
    · rfl
  simp only []
  split
  · exact hv
  · split
    · exact hv
    · split <;> exact hv

theorem Deserialize_sum (c : Externals) (sum : Nat) (s : SigLockedSingleOutput)
    (data : List Byte) (deSeriMode : DeSerializationMode) (r : DeserializeReturn)
    (h : SigLockedSingleOutput.Deserialize c sum s data deSeriMode = some r) :
    r.sum = sum := by
  unfold SigLockedSingleOutput.Deserialize at h
  split at h
  · cases h; rfl
  · split at h
    · cases h
    · split at h
      · cases h; rfl
      · split at h
        · cases h
        · split at h
          · cases h; rfl
          · split at h
            · cases h
            · split at h
              · split at h
                · rename_i heq
                  have hs := congrArg Prod.fst heq
                  rw [depositCall_sentinel_sum] at hs
                  cases h
                  exact hs.symm
                · rename_i heq
                  have hs := congrArg Prod.fst heq
                  rw [depositCall_sentinel_sum] at hs
                  cases h
                  exact hs.symm
              · cases h; rfl

/-- C9: a call of the deposit amount validator with index -1 leaves the sum
as it was, whether it succeeds or fails; a successful call with another index
adds the amount to the sum (`uint64` addition, which is the exact sum when the
sum is within a supply below 2^63); so any number of calls with index -1 on a
fresh validator for a record with 1 <= amount <= `TokenSupply` all succeed and
leave the validator fresh, and `Serialize` and `Deserialize`, which call the
package-level validator with -1, leave its sum as it was. -/
theorem C9_isolated_mode_frame (c : Externals) (sum : Nat) (index : Int)
    (dep : SigLockedSingleOutput) :
    (OutputsDepositAmountValidator.call c sum (-1) dep).1 = sum ∧
    (index ≠ -1 → (OutputsDepositAmountValidator.call c sum index dep).2 = none →
      (OutputsDepositAmountValidator.call c sum index dep).1 = (sum + dep.Amount) % 2 ^ 64 ∧
      (sum ≤ c.TokenSupply → c.TokenSupply < 2 ^ 63 →
        (OutputsDepositAmountValidator.call c sum index dep).1 = sum + dep.Amount)) ∧
    (1 ≤ dep.Amount → dep.Amount ≤ c.TokenSupply → dep.Amount < 2 ^ 64 → ∀ n : Nat,
      (OutputsDepositAmountValidator c).invokeAll (List.replicate n (-1, dep))
        = (OutputsDepositAmountValidator c, List.replicate n none)) ∧
    (∀ mode, (SigLockedSingleOutput.Serialize c sum dep mode).sum = sum) ∧
    (∀ s data mode r, SigLockedSingleOutput.Deserialize c sum s data mode = some r →
      r.sum = sum) := by
  refine ⟨depositCall_sentinel_sum c sum dep, ?_, ?_, ?_, ?_⟩
  · intro hi hok
    have hs := depositCall_ok_sum c sum index dep hi hok
    refine ⟨hs, ?_⟩
    intro hle hts
    have hb := (depositCall_ok_iff c sum index dep).1 hok
    rw [hs]
    apply Nat.mod_eq_of_lt
    omega
  · intro h1 h2 h3 n
    exact deposit_invokeAll_sentinel c dep h1 h2 h3 n
  · intro mode
    exact Serialize_sum c sum dep mode
  · intro s data mode r h
    exact Deserialize_sum c sum s data mode r h

/-- C9 at the sample instance: three isolated validations of an output of the
whole supply on a fresh validator all succeed. -/
theorem C9_isolated_mode_frame_witness :
    (OutputsDepositAmountValidator sampleExternals).invokeAll
        (List.replicate 3 (-1, { Address := sampleWOTS, Amount := 2779530283277761 }))
      = (OutputsDepositAmountValidator sampleExternals, List.replicate 3 none) :=
  (C9_isolated_mode_frame sampleExternals 0 0
    { Address := sampleWOTS, Amount := 2779530283277761 }).2.2.1
    (by decide) (by decide) (by decide) 3

/-! ## The guards of `Deserialize` -/

/-- C4: in strict mode, on input of at least the minimum size whose first
byte is not 0, `Deserialize` returns the type-mismatch error of the type byte
check and 0 bytes read; the receiver and the validator sum are as before, and
the result is the same whatever the address decoder is, which is not run. -/
theorem C4_tag_rejection (c : Externals) (sum : Nat) (s : SigLockedSingleOutput)
    (b : Byte) (rest : List Byte) (deSeriMode : DeSerializationMode)
    (hstrict : deSeriMode.HasMode DeSeriModePerformValidation = true)
    (hlen : SigLockedSingleOutputBytesMinSize c ≤ (b :: rest).length)
    (hb : b ≠ 0) :
    SigLockedSingleOutput.Deserialize c sum s (b :: rest) deSeriMode
      = some { sum := sum, s := s, n := 0, err := some .ErrDeserializationTypeMismatch } ∧
    ∀ d, SigLockedSingleOutput.Deserialize { c with DeserializeObject := d } sum s
        (b :: rest) deSeriMode
      = some { sum := sum, s := s, n := 0, err := some .ErrDeserializationTypeMismatch } := by
  have key : ∀ c' : Externals, SigLockedSingleOutputBytesMinSize c' ≤ (b :: rest).length →
      SigLockedSingleOutput.Deserialize c' sum s (b :: rest) deSeriMode
        = some { sum := sum, s := s, n := 0, err := some .ErrDeserializationTypeMismatch } := by
    intro c' hlen'
    have hmin : checkMinByteLength (SigLockedSingleOutputBytesMinSize c') (b :: rest).length
        = none := by
      unfold checkMinByteLength
      rw [if_neg (by omega)]
    have hty : checkTypeByte (b :: rest) OutputSigLockedSingleOutput
        = some .ErrDeserializationTypeMismatch := by
      unfold checkTypeByte OutputSigLockedSingleOutput
      simp [hb]
    unfold SigLockedSingleOutput.Deserialize
    simp only [hstrict, if_true, hmin, hty]
  exact ⟨key c hlen, fun d => key _ hlen⟩

/-- C4 at the sample instance: 42 bytes starting with 5, in strict mode. -/
theorem C4_tag_rejection_witness :
    SigLockedSingleOutput.Deserialize sampleExternals 0 { Address := .other 0, Amount := 0 }
        (5 :: List.replicate 41 0) DeSeriModePerformValidation
      = some { sum := 0, s := { Address := .other 0, Amount := 0 }, n := 0,
               err := some .ErrDeserializationTypeMismatch } :=
  (C4_tag_rejection sampleExternals 0 { Address := .other 0, Amount := 0 } 5
    (List.replicate 41 0) DeSeriModePerformValidation (by decide) (by decide) (by decide)).1

theorem asSigLockedSingleOutput_toSerializable (d : SigLockedSingleOutput) :
    d.toSerializable.asSigLockedSingleOutput = some d := rfl

theorem loop_cons_single (i : Nat) (d : SigLockedSingleOutput) (rest : List Serializable)
    (f : OutputsValidatorFunc) :
    ValidateOutputs.loop i (d.toSerializable :: rest) [f] =
      match (f.invoke i d).2 with
      | some err => ([(f.invoke i d).1], some err)
      | none => ValidateOutputs.loop (i + 1) rest [(f.invoke i d).1] := by
  rw [ValidateOutputs.loop]
  simp only [asSigLockedSingleOutput_toSerializable, ValidateOutputs.inner]
  cases h : (f.invoke i d).2 <;> simp

theorem withSum_invoke (c : Externals) (sum : Nat) (index : Int) (d : SigLockedSingleOutput) :
    (OutputsDepositAmountValidator.withSum c sum).invoke index d =
      (OutputsDepositAmountValidator.withSum c
          (OutputsDepositAmountValidator.call c sum index d).1,
        (OutputsDepositAmountValidator.call c sum index d).2) := rfl

theorem deposit_loop_fail (c : Externals) (hts : c.TokenSupply < 2 ^ 63) :
    ∀ (deps : List SigLockedSingleOutput) (i sum k : Nat),
      sum ≤ c.TokenSupply →
      (∀ d ∈ deps, 1 ≤ d.Amount ∧ d.Amount ≤ c.TokenSupply) →
      k < deps.length →
      sum + ((deps.map (·.Amount)).take k).sum ≤ c.TokenSupply →
      c.TokenSupply < sum + ((deps.map (·.Amount)).take (k + 1)).sum →
      (ValidateOutputs.loop i (deps.map (·.toSerializable))
          [OutputsDepositAmountValidator.withSum c sum]).2
        = some (.ErrOutputsSumExceedsTotalSupply ((i : Int) + k)) := by
  intro deps
  induction deps with
  | nil => intro i sum k _ _ hk; simp at hk
  | cons d ds ih =>
    intro i sum k hsum hall hk hle hgt
    have hd := hall d (List.mem_cons_self _ _)
    rw [List.map_cons, loop_cons_single, withSum_invoke]
    cases k with
    | zero =>
      simp only [List.map_cons, List.take_succ_cons, List.take_zero, List.sum_cons,
        List.sum_nil, Nat.add_zero] at hgt
      have hmod : (sum + d.Amount) % 2 ^ 64 = sum + d.Amount := Nat.mod_eq_of_lt (by omega)
      have hcall : (OutputsDepositAmountValidator.call c sum (i : Int) d).2
          = some (.ErrOutputsSumExceedsTotalSupply (i : Int)) := by
        unfold OutputsDepositAmountValidator.call
        rw [hmod]
        rw [if_neg (by omega), if_neg (by omega), if_pos (by omega)]
      simp only [hcall]
      simp
    | succ k =>
      simp only [List.map_cons, List.take_succ_cons, List.sum_cons] at hle hgt
      have hmod : (sum + d.Amount) % 2 ^ 64 = sum + d.Amount := Nat.mod_eq_of_lt (by omega)
      have hi : ((i : Nat) : Int) ≠ -1 := by omega
      have hcall : OutputsDepositAmountValidator.call c sum (i : Int) d
          = (sum + d.Amount, none) := by
        unfold OutputsDepositAmountValidator.call
        rw [hmod]
        rw [if_neg (by omega), if_neg (by omega), if_neg (by omega), if_pos hi]
      simp only [hcall]
      have := ih (i + 1) (sum + d.Amount) k (by omega)
        (fun x hx => hall x (List.mem_cons_of_mem _ hx))
        (by simpa using hk) (by omega) (by omega)
      rw [this]
      congr 2
      push_cast
      omega

/-- C7: for outputs with amounts in [1, `TokenSupply`], if `k` is the least
index at which the exact sum of the amounts 0..k exceeds `TokenSupply`, then
`ValidateOutputs` with one fresh deposit amount validator returns the
cumulative-sum error `ErrOutputsSumExceedsTotalSupply` for index `k` (for a
supply below 2^63, so that a sum of two amounts fits a `uint64`); so two
outputs of `TokenSupply` each fail on the second. -/
theorem C7_cumulative_bound (c : Externals) (hts : c.TokenSupply < 2 ^ 63)
    (deps : List SigLockedSingleOutput) (k : Nat)
    (hall : ∀ d ∈ deps, 1 ≤ d.Amount ∧ d.Amount ≤ c.TokenSupply)
    (hk : k < deps.length)
    (hgt : c.TokenSupply < ((deps.map (·.Amount)).take (k + 1)).sum)
    (hleast : ∀ j, j < k → ((deps.map (·.Amount)).take (j + 1)).sum ≤ c.TokenSupply) :
    (ValidateOutputs (deps.map (·.toSerializable)) [OutputsDepositAmountValidator c]).2
      = some (.ErrOutputsSumExceedsTotalSupply k) ∧
    (1 ≤ c.TokenSupply → ∀ a₁ a₂ : Serializable,
      (ValidateOutputs
          [.SigLockedSingleOutput a₁ c.TokenSupply, .SigLockedSingleOutput a₂ c.TokenSupply]
          [OutputsDepositAmountValidator c]).2
        = some (.ErrOutputsSumExceedsTotalSupply 1)) := by
  constructor
  · have hle : 0 + ((deps.map (·.Amount)).take k).sum ≤ c.TokenSupply := by
      cases k with
      | zero => simp
      | succ k => simpa using hleast k (Nat.lt_succ_self k)
    have := deposit_loop_fail c hts deps 0 0 k (Nat.zero_le _) hall hk hle (by simpa using hgt)
    simpa [ValidateOutputs, OutputsDepositAmountValidator] using this
  · intro h1 a₁ a₂
    have := deposit_loop_fail c hts
      [{ Address := a₁, Amount := c.TokenSupply }, { Address := a₂, Amount := c.TokenSupply }]
      0 0 1 (Nat.zero_le _)
      (by
        intro d hd
        simp only [List.mem_cons, List.mem_singleton, List.not_mem_nil, or_false] at hd
        rcases hd with rfl | rfl <;> exact ⟨h1, Nat.le_refl _⟩)
      (by simp) (by simp) (by simp; omega)
    simpa [ValidateOutputs, OutputsDepositAmountValidator,
      SigLockedSingleOutput.toSerializable] using this

/-- C7 at the sample instance: two outputs of the whole supply fail on the
second with the cumulative-sum error. -/
theorem C7_cumulative_bound_witness :
    (ValidateOutputs
        [.SigLockedSingleOutput sampleEd25519 2779530283277761,
         .SigLockedSingleOutput sampleWOTS 2779530283277761]
        [OutputsDepositAmountValidator sampleExternals]).2
      = some (.ErrOutputsSumExceedsTotalSupply 1) :=
  (C7_cumulative_bound sampleExternals (by decide)
    [{ Address := sampleEd25519, Amount := 2779530283277761 },
     { Address := sampleWOTS, Amount := 2779530283277761 }] 1
    (by decide) (by decide) (by decide) (by decide)).1

/-! ## The address uniqueness validator -/

theorem key_injective (c : Externals)
    (hne : c.WOTSAddressBytesLength ≠ c.Ed25519AddressBytesLength) (a b : Serializable)
    (ha : a.IsKnownAddress = true) (hb : b.IsKnownAddress = true)
    (hwa : a.WellTyped c) (hwb : b.WellTyped c)
    (h : OutputsAddrUniqueValidator.key a = OutputsAddrUniqueValidator.key b) : a = b := by
  cases a <;> cases b <;>
    simp_all [Serializable.IsKnownAddress, Serializable.WellTyped,
      OutputsAddrUniqueValidator.key]

theorem firstIndex_append_of_mem (k : List Byte) (l₁ l₂ : List (List Byte)) (h : k ∈ l₁) :
    firstIndex k (l₁ ++ l₂) = firstIndex k l₁ := by
  induction l₁ with
  | nil => simp at h
  | cons x xs ih =>
    show firstIndex k (x :: (xs ++ l₂)) = firstIndex k (x :: xs)
    by_cases hx : x = k
    · rw [firstIndex, firstIndex, if_pos hx, if_pos hx]
    · have hmem : k ∈ xs := by
        rcases List.mem_cons.1 h with h1 | h1
        · exact absurd h1.symm hx
        · exact h1
      rw [firstIndex, firstIndex, if_neg hx, if_neg hx, ih hmem]

theorem firstIndex_append_of_not_mem (k : List Byte) (l₁ l₂ : List (List Byte)) (h : k ∉ l₁) :
    firstIndex k (l₁ ++ l₂) = l₁.length + firstIndex k l₂ := by
  induction l₁ with
  | nil => simp
  | cons x xs ih =>
    have hx : ¬ x = k := fun e => h (e ▸ List.mem_cons_self _ _)
    have hxs : k ∉ xs := fun e => h (List.mem_cons_of_mem _ e)
    show firstIndex k (x :: (xs ++ l₂)) = (x :: xs).length + firstIndex k l₂
    rw [firstIndex, if_neg hx, ih hxs, List.length_cons]
    omega

theorem firstIndex_getElem_of_nodup (l : List (List Byte)) (hnd : l.Nodup) (i : Nat)
    (hi : i < l.length) : firstIndex l[i] l = i := by
  induction l generalizing i with
  | nil => simp at hi
  | cons x xs ih =>
    rw [List.nodup_cons] at hnd
    cases i with
    | zero => simp [firstIndex]
    | succ i =>
      have hi1 : i < xs.length := by simpa using hi
      have hne : ¬ x = xs[i] := fun e => hnd.1 (e ▸ List.getElem_mem hi1)
      simp only [List.getElem_cons_succ, firstIndex, if_neg hne, ih hnd.2 i hi1]

theorem AddrSet.holds_nil : AddrSet.Holds [] [] := by
  intro k
  simp

theorem AddrSet.holds_insert (set : AddrSet) (keys : List (List Byte)) (k : List Byte)
    (h : AddrSet.Holds set keys) (hk : k ∉ keys) :
    AddrSet.Holds ((k, (keys.length : Int)) :: set) (keys ++ [k]) := by
  intro k'
  by_cases hkk : k' = k
  · subst hkk
    rw [List.lookup_cons_self]
    rw [if_pos (by simp), firstIndex_append_of_not_mem _ _ _ hk]
    simp [firstIndex]
  · rw [List.lookup_cons]
    have hbeq : (k' == k) = false := by simpa using hkk
    rw [hbeq]
    simp only []
    rw [h k']
    by_cases hmem : k' ∈ keys
    · rw [if_pos hmem, if_pos (by simp [hmem]), firstIndex_append_of_mem _ _ _ hmem]
    · rw [if_neg hmem, if_neg (by simp [hmem, hkk])]

theorem withSet_invoke (set : AddrSet) (index : Int) (d : SigLockedSingleOutput) :
    (OutputsAddrUniqueValidator.withSet set).invoke index d =
      (OutputsAddrUniqueValidator.withSet (OutputsAddrUniqueValidator.call set index d).1,
        (OutputsAddrUniqueValidator.call set index d).2) := rfl

theorem uniqueCall_mem (set : AddrSet) (keys : List (List Byte)) (index : Int)
    (d : SigLockedSingleOutput) (h : AddrSet.Holds set keys)
    (hk : OutputsAddrUniqueValidator.key d.Address ∈ keys) :
    OutputsAddrUniqueValidator.call set index d =
      (set, some (.ErrOutputAddrNotUnique
        (firstIndex (OutputsAddrUniqueValidator.key d.Address) keys : Int) index)) := by
  unfold OutputsAddrUniqueValidator.call
  simp only [h _, if_pos hk]

theorem uniqueCall_not_mem (set : AddrSet) (keys : List (List Byte)) (index : Int)
    (d : SigLockedSingleOutput) (h : AddrSet.Holds set keys)
    (hk : OutputsAddrUniqueValidator.key d.Address ∉ keys) :
    OutputsAddrUniqueValidator.call set index d =
      ((OutputsAddrUniqueValidator.key d.Address, index) :: set, none) := by
  unfold OutputsAddrUniqueValidator.call
  simp only [h _, if_neg hk]

theorem unique_loop_ok_iff :
    ∀ (deps : List SigLockedSingleOutput) (keys : List (List Byte)) (set : AddrSet),
      AddrSet.Holds set keys → keys.Nodup →
      ((ValidateOutputs.loop keys.length (deps.map (·.toSerializable))
          [OutputsAddrUniqueValidator.withSet set]).2 = none ↔
        (keys ++ deps.map (fun d => OutputsAddrUniqueValidator.key d.Address)).Nodup) := by
  intro deps
  induction deps with
  | nil =>
    intro keys set _ hnd
    simp [ValidateOutputs.loop, hnd]
  | cons d ds ih =>
    intro keys set hset hnd
    rw [List.map_cons, loop_cons_single, withSet_invoke]
    by_cases hk : OutputsAddrUniqueValidator.key d.Address ∈ keys
    · rw [uniqueCall_mem set keys _ d hset hk]
      simp only [List.map_cons]
      constructor
      · intro h; cases h
      · intro h
        exact absurd hk (by
          have := (List.nodup_append.1 h).2.2
          exact fun hmem => this hmem (List.mem_cons_self _ _))
    · rw [uniqueCall_not_mem set keys _ d hset hk]
      simp only [List.map_cons]
      have hset1 := AddrSet.holds_insert set keys _ hset hk
      have hnd1 : (keys ++ [OutputsAddrUniqueValidator.key d.Address]).Nodup := by
        rw [List.nodup_append]
        refine ⟨hnd, List.nodup_singleton _, ?_⟩
        intro x hx hx1
        rw [List.mem_singleton] at hx1
        subst hx1
        exact hk hx
      have := ih (keys ++ [OutputsAddrUniqueValidator.key d.Address]) _ hset1 hnd1
      rw [List.length_append, List.length_singleton] at this
      rw [this, List.append_assoc, List.singleton_append]

theorem unique_loop_fail :
    ∀ (deps : List SigLockedSingleOutput) (keys : List (List Byte)) (set : AddrSet)
      (j : Nat) (k : List Byte),
      AddrSet.Holds set keys →
      (deps.map (fun d => OutputsAddrUniqueValidator.key d.Address))[j]? = some k →
      (keys ++ (deps.map (fun d => OutputsAddrUniqueValidator.key d.Address)).take j).Nodup →
      k ∈ keys ++ (deps.map (fun d => OutputsAddrUniqueValidator.key d.Address)).take j →
      (ValidateOutputs.loop keys.length (deps.map (·.toSerializable))
          [OutputsAddrUniqueValidator.withSet set]).2
        = some (.ErrOutputAddrNotUnique
            (firstIndex k
              (keys ++ deps.map (fun d => OutputsAddrUniqueValidator.key d.Address)) : Int)
            ((keys.length : Int) + j)) := by
  intro deps
  induction deps with
  | nil => intro keys set j k _ hk; simp at hk
  | cons d ds ih =>
    intro keys set j k hset hk hnd hmem
    rw [List.map_cons, loop_cons_single, withSet_invoke]
    cases j with
    | zero =>
      simp only [List.map_cons, List.getElem?_cons_zero, Option.some.injEq] at hk
      simp only [List.take_zero, List.append_nil] at hmem
      subst hk
      rw [uniqueCall_mem set keys _ d hset hmem]
      simp only [List.map_cons]
      rw [firstIndex_append_of_mem _ _ _ hmem]
      simp
    | succ j =>
      simp only [List.map_cons, List.getElem?_cons_succ] at hk
      simp only [List.map_cons, List.take_succ_cons] at hnd hmem
      have hd : OutputsAddrUniqueValidator.key d.Address ∉ keys := by
        intro hin
        exact (List.nodup_append.1 hnd).2.2 hin (List.mem_cons_self _ _)
      rw [uniqueCall_not_mem set keys _ d hset hd]
      simp only [List.map_cons]
      have hset1 := AddrSet.holds_insert set keys _ hset hd
      have hassoc : ∀ l : List (List Byte),
          keys ++ [OutputsAddrUniqueValidator.key d.Address] ++ l
            = keys ++ OutputsAddrUniqueValidator.key d.Address :: l := by
        intro l; simp
      have := ih (keys ++ [OutputsAddrUniqueValidator.key d.Address]) _ j k hset1 hk
        (by rw [hassoc]; exact hnd) (by rw [hassoc]; exact hmem)
      rw [List.length_append, List.length_singleton, hassoc] at this
      rw [this]
      congr 2
      push_cast
      omega

theorem exists_first_repeat {α : Type _} (l : List α) (h : ¬ l.Nodup) :
    ∃ (i j : Nat) (a : α), i < j ∧ l[i]? = some a ∧ l[j]? = some a ∧ (l.take j).Nodup := by
  induction l using List.reverseRecOn with
  | nil => exact absurd List.nodup_nil h
  | append_singleton xs x ih =>
    by_cases hxs : xs.Nodup
    · have hx : x ∈ xs := by
        by_contra hx
        apply h
        rw [List.nodup_append]
        refine ⟨hxs, List.nodup_singleton _, ?_⟩
        intro y hy hy1
        rw [List.mem_singleton] at hy1
        subst hy1
        exact hx hy
      obtain ⟨i, hi, hix⟩ := List.getElem_of_mem hx
      refine ⟨i, xs.length, x, hi, ?_, ?_, ?_⟩
      · rw [List.getElem?_append_left hi, List.getElem?_eq_getElem hi, hix]
      · simp
      · simpa using hxs
    · obtain ⟨i, j, a, hij, hi, hj, hnd⟩ := ih hxs
      have hjlt : j < xs.length := (List.getElem?_eq_some.1 hj).1
      refine ⟨i, j, a, hij, ?_, ?_, ?_⟩
      · rw [List.getElem?_append_left (by omega)]; exact hi
      · rw [List.getElem?_append_left hjlt]; exact hj
      · rw [List.take_append_of_le_length (by omega)]; exact hnd

/-- C8: for outputs with WOTS or Ed25519 addresses (of array types of
different lengths), `ValidateOutputs` with one fresh address uniqueness
validator succeeds exactly when the addresses are pairwise distinct; when
`j` is the least index whose address occurred before, at index `i`, it
returns the duplicate-address error naming `i` and `j`; and when the
addresses are not pairwise distinct there is such a pair. -/
theorem C8_address_uniqueness (c : Externals)
    (hne : c.WOTSAddressBytesLength ≠ c.Ed25519AddressBytesLength)
    (deps : List SigLockedSingleOutput)
    (hknown : ∀ d ∈ deps, d.Address.IsKnownAddress = true ∧ d.Address.WellTyped c) :
    ((ValidateOutputs (deps.map (·.toSerializable)) [OutputsAddrUniqueValidator]).2 = none ↔
      (deps.map (·.Address)).Nodup) ∧
    (∀ (i j : Nat) (a : Serializable), i < j →
      (deps.map (·.Address))[i]? = some a → (deps.map (·.Address))[j]? = some a →
      ((deps.map (·.Address)).take j).Nodup →
      (ValidateOutputs (deps.map (·.toSerializable)) [OutputsAddrUniqueValidator]).2
        = some (.ErrOutputAddrNotUnique i j)) ∧
    (¬ (deps.map (·.Address)).Nodup →
      ∃ (i j : Nat) (a : Serializable), i < j ∧
        (deps.map (·.Address))[i]? = some a ∧ (deps.map (·.Address))[j]? = some a ∧
        ((deps.map (·.Address)).take j).Nodup ∧
        (ValidateOutputs (deps.map (·.toSerializable)) [OutputsAddrUniqueValidator]).2
          = some (.ErrOutputAddrNotUnique i j)) := by
  have hinj : ∀ x ∈ deps.map (·.Address), ∀ y ∈ deps.map (·.Address),
      OutputsAddrUniqueValidator.key x = OutputsAddrUniqueValidator.key y → x = y := by
    intro x hx y hy hxy
    rcases List.mem_map.1 hx with ⟨dx, hdx, rfl⟩
    rcases List.mem_map.1 hy with ⟨dy, hdy, rfl⟩
    exact key_injective c hne _ _ (hknown dx hdx).1 (hknown dy hdy).1 (hknown dx hdx).2
      (hknown dy hdy).2 hxy
  have hkeys : deps.map (fun d => OutputsAddrUniqueValidator.key d.Address)
      = (deps.map (·.Address)).map OutputsAddrUniqueValidator.key := by
    simp
  have hfail : ∀ (i j : Nat) (a : Serializable), i < j →
      (deps.map (·.Address))[i]? = some a → (deps.map (·.Address))[j]? = some a →
      ((deps.map (·.Address)).take j).Nodup →
      (ValidateOutputs (deps.map (·.toSerializable)) [OutputsAddrUniqueValidator]).2
        = some (.ErrOutputAddrNotUnique i j) := by
    intro i j a hij hi hj hnd
    have hjlt : j < (deps.map (·.Address)).length := by
      rcases List.getElem?_eq_some.1 hj with ⟨h, _⟩
      exact h
    have hkj : (deps.map (fun d => OutputsAddrUniqueValidator.key d.Address))[j]?
        = some (OutputsAddrUniqueValidator.key a) := by
      rw [hkeys, List.getElem?_map, hj]; rfl
    have hki : ((deps.map (fun d => OutputsAddrUniqueValidator.key d.Address)).take j)[i]?
        = some (OutputsAddrUniqueValidator.key a) := by
      rw [List.getElem?_take_of_lt hij, hkeys, List.getElem?_map, hi]; rfl
    have hndk : ((deps.map (fun d => OutputsAddrUniqueValidator.key d.Address)).take j).Nodup := by
      rw [hkeys, ← List.map_take]
      exact List.Nodup.map_on
        (fun x hx y hy => hinj x (List.mem_of_mem_take hx) y (List.mem_of_mem_take hy)) hnd
    rcases List.getElem?_eq_some.1 hki with ⟨hilt, hival⟩
    have hmem : OutputsAddrUniqueValidator.key a
        ∈ (deps.map (fun d => OutputsAddrUniqueValidator.key d.Address)).take j := by
      rw [← hival]; exact List.getElem_mem hilt
    have := unique_loop_fail deps [] [] j _ AddrSet.holds_nil hkj (by simpa using hndk)
      (by simpa using hmem)
    simp only [List.length_nil, List.nil_append] at this
    unfold ValidateOutputs OutputsAddrUniqueValidator
    rw [this]
    have hfi : firstIndex (OutputsAddrUniqueValidator.key a)
        (deps.map (fun d => OutputsAddrUniqueValidator.key d.Address)) = i := by
      conv_lhs =>
        rw [← List.take_append_drop j
          (deps.map (fun d => OutputsAddrUniqueValidator.key d.Address))]
      rw [firstIndex_append_of_mem _ _ _ hmem, ← hival]
      exact firstIndex_getElem_of_nodup _ hndk i hilt
    rw [hfi]
    simp
  refine ⟨?_, hfail, ?_⟩
  · have := unique_loop_ok_iff deps [] [] AddrSet.holds_nil List.nodup_nil
    simp only [List.length_nil, List.nil_append] at this
    unfold ValidateOutputs OutputsAddrUniqueValidator
    rw [this, hkeys]
    constructor
    · intro h; exact List.Nodup.of_map _ h
    · intro h; exact List.Nodup.map_on hinj h
  · intro hdup
    obtain ⟨i, j, a, hij, hi, hj, hnd⟩ := exists_first_repeat _ hdup
    exact ⟨i, j, a, hij, hi, hj, hnd, hfail i j a hij hi hj hnd⟩

/-- C8 at the sample instance: the third output repeats the address of the
first, and the error names the indices 0 and 2. -/
theorem C8_address_uniqueness_witness :
    (ValidateOutputs
        [.SigLockedSingleOutput sampleEd25519 5, .SigLockedSingleOutput sampleWOTS 6,
         .SigLockedSingleOutput sampleEd25519 7]
        [OutputsAddrUniqueValidator]).2
      = some (.ErrOutputAddrNotUnique 0 2) :=
  (C8_address_uniqueness sampleExternals (by decide)
    [{ Address := sampleEd25519, Amount := 5 }, { Address := sampleWOTS, Amount := 6 },
     { Address := sampleEd25519, Amount := 7 }]
    (by
      intro d hd
      simp only [List.mem_cons, List.mem_singleton, List.not_mem_nil, or_false] at hd
      rcases hd with rfl | rfl | rfl <;> exact ⟨rfl, rfl⟩)).2.1 0 2 sampleEd25519
    (by decide) rfl rfl (by decide)

/-! ## The chain runner -/

theorem inner_length (i : Int) (dep : SigLockedSingleOutput) :
    ∀ funcs : List OutputsValidatorFunc,
      (ValidateOutputs.inner i dep funcs).1.length = funcs.length := by
  intro funcs
  induction funcs with
  | nil => rfl
  | cons f fs ih =>
    rw [ValidateOutputs.inner]
    cases h : (f.invoke i dep).2 <;> simp [ih]

theorem getElem?_append_cons_length {α : Type _} (pre : List α) (x : α) (xs : List α) :
    (pre ++ x :: xs)[pre.length]? = some x := by
  induction pre with
  | nil => simp
  | cons y ys ih => simpa using ih

theorem firstFailure_row (deps : List SigLockedSingleOutput) (i : Nat)
    (dep : SigLockedSingleOutput) (hdep : deps[i]? = some dep) (rest : List (Nat × Nat)) :
    ∀ (fs pre : List OutputsValidatorFunc),
      firstFailure deps ((List.range' pre.length fs.length).map (fun j => (i, j)) ++ rest)
          (pre ++ fs) =
        match (ValidateOutputs.inner i dep fs).2 with
        | some err => (pre ++ (ValidateOutputs.inner i dep fs).1, some err)
        | none => firstFailure deps rest (pre ++ (ValidateOutputs.inner i dep fs).1) := by
  intro fs
  induction fs with
  | nil =>
    intro pre
    simp [ValidateOutputs.inner]
  | cons f fs ih =>
    intro pre
    have hget : (pre ++ f :: fs)[pre.length]? = some f := getElem?_append_cons_length _ _ _
    have hset : ∀ g, (pre ++ f :: fs).set pre.length g = pre ++ g :: fs := by
      intro g; simp
    rw [List.length_cons, List.range'_succ, List.map_cons, List.cons_append, firstFailure]
    simp only [hdep, hget, hset]
    rw [ValidateOutputs.inner]
    cases h : (f.invoke i dep).2 with
    | some err => simp
    | none =>
      simp only []
      have := ih (pre ++ [(f.invoke i dep).1])
      rw [List.length_append, List.length_singleton] at this
      simp only [List.append_assoc, List.singleton_append] at this
      rw [this]

theorem loop_eq_firstFailure :
    ∀ (ds pre : List SigLockedSingleOutput) (funcs : List OutputsValidatorFunc),
      ValidateOutputs.loop pre.length (ds.map (·.toSerializable)) funcs =
        firstFailure (pre ++ ds)
          ((List.range' pre.length ds.length).flatMap
            (fun i => (List.range' 0 funcs.length).map (fun j => (i, j)))) funcs := by
  intro ds
  induction ds with
  | nil =>
    intro pre funcs
    simp [ValidateOutputs.loop, firstFailure]
  | cons d ds ih =>
    intro pre funcs
    have hget : (pre ++ d :: ds)[pre.length]? = some d := getElem?_append_cons_length _ _ _
    have hrow := firstFailure_row (pre ++ d :: ds) pre.length d hget
      ((List.range' (pre.length + 1) ds.length).flatMap
        (fun i => (List.range' 0 funcs.length).map (fun j => (i, j)))) funcs []
    simp only [List.length_nil, List.nil_append] at hrow
    rw [List.map_cons, ValidateOutputs.loop, asSigLockedSingleOutput_toSerializable,
      List.length_cons, List.range'_succ, List.flatMap_cons, hrow]
    dsimp only
    cases h : (ValidateOutputs.inner (pre.length : Int) d funcs).2 with
    | some err => rfl
    | none =>
      simp only []
      have := ih (pre ++ [d]) (ValidateOutputs.inner (pre.length : Int) d funcs).1
      rw [List.length_append, List.length_singleton, inner_length] at this
      simp only [List.append_assoc, List.singleton_append] at this
      rw [this]

/-- C10: `ValidateOutputs` on a sequence of outputs and a list of validators
makes the invocations of validator `j` on record `i` in lexicographic order
of `(i, j)`, each on the validators as the earlier invocations left them,
stops at the first invocation that fails and returns its error with the
validators as they are then, and returns no error when none fails; the order
holds every pair `(i, j)` once; with no record or no validator the result is
no error and the validators are untouched. -/
theorem C10_chain_runner_order (deps : List SigLockedSingleOutput)
    (funcs : List OutputsValidatorFunc) :
    ValidateOutputs (deps.map (·.toSerializable)) funcs
      = firstFailure deps (invocationOrder deps.length funcs.length) funcs ∧
    (∀ i j, (i, j) ∈ invocationOrder deps.length funcs.length ↔
      i < deps.length ∧ j < funcs.length) ∧
    (invocationOrder deps.length funcs.length).Pairwise
      (fun p q => p.1 < q.1 ∨ (p.1 = q.1 ∧ p.2 < q.2)) ∧
    ValidateOutputs [] funcs = (funcs, none) ∧
    ValidateOutputs (deps.map (·.toSerializable)) [] = ([], none) := by
  have hmain := loop_eq_firstFailure deps [] funcs
  simp only [List.length_nil, List.nil_append] at hmain
  refine ⟨hmain, ?_, ?_, rfl, ?_⟩
  · intro i j
    simp [invocationOrder, List.mem_range']
  · unfold invocationOrder
    rw [List.pairwise_flatMap]
    constructor
    · intro i _
      rw [List.pairwise_map]
      exact List.Pairwise.imp (fun h => Or.inr ⟨rfl, h⟩) (List.pairwise_lt_range' 0 _)
    · refine List.Pairwise.imp ?_ (List.pairwise_lt_range' 0 _)
      intro a b hab x hx y hy
      rcases List.mem_map.1 hx with ⟨_, _, rfl⟩
      rcases List.mem_map.1 hy with ⟨_, _, rfl⟩
      exact Or.inl hab
  · have := loop_eq_firstFailure deps [] []
    simp only [List.length_nil, List.nil_append] at this
    unfold ValidateOutputs
    rw [this]
    have hnil : ∀ l : List Nat,
        l.flatMap (fun i => (List.range' 0 0).map (fun j => (i, j))) = [] := by
      intro l
      induction l with
      | nil => rfl
      | cons x xs ih => simp
    rw [hnil]
    rfl

/-! ## The binary codec -/

theorem Uint64_bytes (v : Nat) (hv : v < 2 ^ 64) :
    LittleEndian.Uint64 (LittleEndian.bytes v) = some v := by
  simp only [LittleEndian.Uint64, LittleEndian.bytes, byteOf, List.length_cons, List.length_nil,
    List.take_succ_cons, List.take_zero, List.foldr_cons, List.foldr_nil]
  norm_num
  omega

theorem bytes_length (v : Nat) : (LittleEndian.bytes v).length = 8 := rfl

theorem copy_make_append (n : Nat) (raw rest : List Byte) (h : raw.length = n) :
    copy (make n) (raw ++ rest) = raw := by
  unfold copy make
  simp [h, List.take_append_of_le_length, List.drop_eq_nil_of_le]

theorem fill_eq (n : Nat) (addrBytes : List Byte) (amount : Nat) (h : addrBytes.length = n) :
    SigLockedSingleOutput.Serialize.fill (SmallTypeDenotationByteSize + n + UInt64ByteSize)
      addrBytes amount
      = OutputSigLockedSingleOutput :: (addrBytes ++ LittleEndian.bytes amount) := by
  have hmk : make (SmallTypeDenotationByteSize + n + UInt64ByteSize)
      = (0 : Byte) :: (List.replicate n 0 ++ List.replicate 8 0) := by
    unfold make SmallTypeDenotationByteSize UInt64ByteSize
    rw [show 1 + n + 8 = (n + 8) + 1 by omega, List.replicate_succ, List.replicate_add]
  unfold SigLockedSingleOutput.Serialize.fill
  simp only [hmk]
  simp only [OutputSigLockedSingleOutput, SmallTypeDenotationByteSize, UInt64ByteSize,
    List.set_cons_zero, List.take_succ_cons, List.take_zero, List.drop_succ_cons, List.drop_zero]
  have hcopy : copy (List.replicate n 0 ++ List.replicate 8 0) addrBytes
      = addrBytes ++ List.replicate 8 0 := by
    unfold copy
    rw [List.take_of_length_le (by simp; omega), ← h, List.drop_append_of_le_length (by simp)]
    simp
  rw [hcopy]
  have hlen : ([(0 : Byte)] ++ (addrBytes ++ List.replicate 8 (0 : Byte))).length - 8
      = ([(0 : Byte)] ++ addrBytes).length := by
    simp
  rw [hlen, ← List.append_assoc, List.take_left, List.drop_left]
  simp [LittleEndian.PutUint64]

theorem Serialize_of_address_ok (c : Externals) (sum : Nat) (r : SigLockedSingleOutput)
    (mode : DeSerializationMode) (bs : List Byte)
    (hv : mode.HasMode DeSeriModePerformValidation = true →
      (OutputsDepositAmountValidator.call c sum (-1) r).2 = none)
    (hknown : r.Address.IsKnownAddress = true)
    (hbs : c.AddressSerialize r.Address mode = .ok bs) :
    SigLockedSingleOutput.Serialize c sum r mode =
      { sum := sum,
        data := SigLockedSingleOutput.Serialize.fill
          (SmallTypeDenotationByteSize + c.addressSize r.Address + UInt64ByteSize) bs r.Amount,
        err := none } := by
  have hv1 : (if mode.HasMode DeSeriModePerformValidation = true then
      OutputsDepositAmountValidator.call c sum (-1) r else (sum, none)) = (sum, none) := by
    split_ifs with hm
    · exact Prod.ext (depositCall_sentinel_sum c sum r) (hv hm)
    · rfl
  unfold SigLockedSingleOutput.Serialize
  simp only [hv1]
  cases ha : r.Address with
  | WOTSAddress raw =>
    rw [ha] at hbs
    simp only [hbs]
    rfl
  | Ed25519Address raw =>
    rw [ha] at hbs
    simp only [hbs]
    rfl
  | SigLockedSingleOutput a n => rw [ha] at hknown; cases hknown
  | other id => rw [ha] at hknown; cases hknown

theorem Serialize_ok_address (c : Externals) (sum : Nat) (r : SigLockedSingleOutput)
    (mode : DeSerializationMode)
    (hok : (SigLockedSingleOutput.Serialize c sum r mode).err = none) :
    (mode.HasMode DeSeriModePerformValidation = true →
      (OutputsDepositAmountValidator.call c sum (-1) r).2 = none) ∧
    ∃ bs, c.AddressSerialize r.Address mode = .ok bs := by
  unfold SigLockedSingleOutput.Serialize at hok
  constructor
  · intro hm
    simp only [hm, if_true] at hok
    cases hc : (OutputsDepositAmountValidator.call c sum (-1) r).2 with
    | none => rfl
    | some e => simp [hc] at hok
  · revert hok
    simp only []
    split
    · intro h; cases h
    · split
      · intro h; cases h
      · split
        · intro h; cases h
        · rename_i bs hbs
          intro _
          exact ⟨bs, hbs⟩

theorem sample_copy_raw (n : Nat) (raw : List Byte) (h : raw.length = n) :
    copy (make n) raw = raw := by
  have := copy_make_append n raw [] h
  simpa using this

theorem sample_AddressFixedSize : sampleExternals.AddressFixedSize := by
  intro a mode bs hknown hwt hbs
  cases a with
  | WOTSAddress raw =>
    have hraw : raw.length = 49 := hwt
    simp only [sampleExternals, sampleAddressSerialize, sample_copy_raw 49 raw hraw,
      Except.ok.injEq] at hbs
    subst hbs
    simp [Externals.addressSize, sampleExternals, hraw]
  | Ed25519Address raw =>
    have hraw : raw.length = 32 := hwt
    simp only [sampleExternals, sampleAddressSerialize, sample_copy_raw 32 raw hraw,
      Except.ok.injEq] at hbs
    subst hbs
    simp [Externals.addressSize, sampleExternals, hraw]
  | SigLockedSingleOutput a n => cases hknown
  | other id => cases hknown

theorem sample_AddressSerializes : sampleExternals.AddressSerializes := by
  intro a mode hknown _
  cases a with
  | WOTSAddress raw => exact ⟨_, rfl⟩
  | Ed25519Address raw => exact ⟨_, rfl⟩
  | SigLockedSingleOutput a n => cases hknown
  | other id => cases hknown

theorem sample_AddressRoundTrip : sampleExternals.AddressRoundTrip := by
  intro a mode bs rest hknown hwt hbs
  cases a with
  | WOTSAddress raw =>
    have hraw : raw.length = 49 := hwt
    simp only [sampleExternals, sampleAddressSerialize, sample_copy_raw 49 raw hraw,
      Except.ok.injEq] at hbs
    subst hbs
    show sampleDeserializeObject ((0 :: raw) ++ rest) mode = _
    have hlen : ¬ ((0 :: raw) ++ rest).length < 2 := by simp; omega
    have hlen2 : ¬ ((0 :: raw) ++ rest).length < 50 := by simp; omega
    unfold sampleDeserializeObject
    rw [if_neg hlen]
    simp only [List.cons_append, List.head?_cons]
    have : ¬ (mode.HasMode DeSeriModePerformValidation = true ∧ (0 :: (raw ++ rest)).length < 50) :=
      fun h => hlen2 h.2
    show (if mode.HasMode DeSeriModePerformValidation = true ∧ (0 :: (raw ++ rest)).length < 50
      then _ else _) = _
    rw [if_neg this]
    simp [copy_make_append 49 raw rest hraw, hraw]
  | Ed25519Address raw =>
    have hraw : raw.length = 32 := hwt
    simp only [sampleExternals, sampleAddressSerialize, sample_copy_raw 32 raw hraw,
      Except.ok.injEq] at hbs
    subst hbs
    show sampleDeserializeObject ((1 :: raw) ++ rest) mode = _
    have hlen : ¬ ((1 :: raw) ++ rest).length < 2 := by simp; omega
    have hlen2 : ¬ ((1 :: raw) ++ rest).length < 33 := by simp; omega
    unfold sampleDeserializeObject
    rw [if_neg hlen]
    simp only [List.cons_append, List.head?_cons]
    have : ¬ (mode.HasMode DeSeriModePerformValidation = true ∧ (1 :: (raw ++ rest)).length < 33) :=
      fun h => hlen2 h.2
    show (if mode.HasMode DeSeriModePerformValidation = true ∧ (1 :: (raw ++ rest)).length < 33
      then _ else _) = _
    rw [if_neg this]
    simp [copy_make_append 32 raw rest hraw, hraw]
  | SigLockedSingleOutput a n => cases hknown
  | other id => cases hknown

/-- C3: when `Serialize` succeeds on a record with a WOTS or Ed25519 address
(whose own serialization has the size `N` fixed by its kind), the bytes are
the type byte 0, then the serialization of the address, then the amount as 8
little-endian bytes, and nothing else; so their number is `9 + N`, which is
`SigLockedSingleOutputWOTSAddrBytesSize` resp.
`SigLockedSingleOutputEd25519AddrBytesSize`. -/
theorem C3_layout_and_size (c : Externals) (hsize : c.AddressFixedSize) (sum : Nat)
    (r : SigLockedSingleOutput) (mode : DeSerializationMode)
    (hknown : r.Address.IsKnownAddress = true) (hwt : r.Address.WellTyped c)
    (hok : (SigLockedSingleOutput.Serialize c sum r mode).err = none) :
    ∃ addrBytes, c.AddressSerialize r.Address mode = .ok addrBytes ∧
      addrBytes.length = c.addressSize r.Address ∧
      (SigLockedSingleOutput.Serialize c sum r mode).data
        = OutputSigLockedSingleOutput :: (addrBytes ++ LittleEndian.bytes r.Amount) ∧
      (r.Amount < 2 ^ 64 →
        LittleEndian.Uint64 (LittleEndian.bytes r.Amount) = some r.Amount) ∧
      (SigLockedSingleOutput.Serialize c sum r mode).data.length
        = 9 + c.addressSize r.Address ∧
      (∀ raw, r.Address = .WOTSAddress raw →
        (SigLockedSingleOutput.Serialize c sum r mode).data.length
          = SigLockedSingleOutputWOTSAddrBytesSize c) ∧
      (∀ raw, r.Address = .Ed25519Address raw →
        (SigLockedSingleOutput.Serialize c sum r mode).data.length
          = SigLockedSingleOutputEd25519AddrBytesSize c) := by
  obtain ⟨hv, bs, hbs⟩ := Serialize_ok_address c sum r mode hok
  have hlen := hsize r.Address mode bs hknown hwt hbs
  have hser := Serialize_of_address_ok c sum r mode bs hv hknown hbs
  rw [fill_eq _ bs r.Amount hlen] at hser
  have hdata : (SigLockedSingleOutput.Serialize c sum r mode).data
      = OutputSigLockedSingleOutput :: (bs ++ LittleEndian.bytes r.Amount) := by
    rw [hser]
  have hdl : (SigLockedSingleOutput.Serialize c sum r mode).data.length
      = 9 + c.addressSize r.Address := by
    rw [hdata, List.length_cons, List.length_append, bytes_length, hlen]
    omega
  refine ⟨bs, hbs, hlen, hdata, Uint64_bytes r.Amount, hdl, ?_, ?_⟩
  · intro raw hraw
    rw [hdl, hraw]
    simp only [Externals.addressSize, SigLockedSingleOutputWOTSAddrBytesSize,
      SmallTypeDenotationByteSize, UInt64ByteSize]
    omega
  · intro raw hraw
    rw [hdl, hraw]
    simp only [Externals.addressSize, SigLockedSingleOutputEd25519AddrBytesSize,
      SmallTypeDenotationByteSize, UInt64ByteSize]
    omega

/-- C3 at the sample instance: an output on an Ed25519 address has 42 bytes. -/
theorem C3_layout_and_size_witness :
    (SigLockedSingleOutput.Serialize sampleExternals 0
        { Address := sampleEd25519, Amount := 258 } DeSeriModePerformValidation).data.length
      = SigLockedSingleOutputEd25519AddrBytesSize sampleExternals :=
  (C3_layout_and_size sampleExternals sample_AddressFixedSize 0
    { Address := sampleEd25519, Amount := 258 } DeSeriModePerformValidation rfl rfl
    (by decide)).choose_spec.2.2.2.2.2.2 _ rfl

/-- C1: for every record with a WOTS or Ed25519 address and an amount from 1
to `TokenSupply`, and every mode, `Serialize` succeeds, and `Deserialize` of
its bytes succeeds, leaves the receiver equal to the record and reports as
many bytes read as there are (for address codecs that decode what they
encode, and a package-level validator in its initial state). -/
theorem C1_binary_round_trip (c : Externals) (hser : c.AddressSerializes)
    (hsize : c.AddressFixedSize) (hrt : c.AddressRoundTrip)
    (hmin : c.Ed25519AddressSerializedBytesSize ≤ c.WOTSAddressSerializedBytesSize)
    (r : SigLockedSingleOutput) (hknown : r.Address.IsKnownAddress = true)
    (hwt : r.Address.WellTyped c) (h1 : 1 ≤ r.Amount) (h2 : r.Amount ≤ c.TokenSupply)
    (h64 : r.Amount < 2 ^ 64) (mode : DeSerializationMode) (s0 : SigLockedSingleOutput) :
    ∃ b, SigLockedSingleOutput.Serialize c 0 r mode = { sum := 0, data := b, err := none } ∧
      SigLockedSingleOutput.Deserialize c 0 s0 b mode
        = some { sum := 0, s := r, n := b.length, err := none } := by
  obtain ⟨bs, hbs⟩ := hser r.Address mode hknown hwt
  have hlen := hsize r.Address mode bs hknown hwt hbs
  have hcall := depositCall_sentinel_fresh c r h1 h2 h64
  have hs := Serialize_of_address_ok c 0 r mode bs (fun _ => by rw [hcall]) hknown hbs
  rw [fill_eq _ bs r.Amount hlen] at hs
  refine ⟨_, hs, ?_⟩
  have hminlen : ¬ (OutputSigLockedSingleOutput :: (bs ++ LittleEndian.bytes r.Amount)).length
      < SigLockedSingleOutputBytesMinSize c := by
    rw [List.length_cons, List.length_append, bytes_length, hlen]
    unfold SigLockedSingleOutputBytesMinSize SigLockedSingleOutputEd25519AddrBytesSize
      SmallTypeDenotationByteSize UInt64ByteSize
    cases ha : r.Address with
    | WOTSAddress raw => simp only [Externals.addressSize]; omega
    | Ed25519Address raw => simp only [Externals.addressSize]; omega
    | SigLockedSingleOutput a n => rw [ha] at hknown; cases hknown
    | other id => rw [ha] at hknown; cases hknown
  have hpre : (if mode.HasMode DeSeriModePerformValidation = true then
      match checkMinByteLength (SigLockedSingleOutputBytesMinSize c)
          (OutputSigLockedSingleOutput :: (bs ++ LittleEndian.bytes r.Amount)).length with
      | some err => some err
      | none => checkTypeByte (OutputSigLockedSingleOutput :: (bs ++ LittleEndian.bytes r.Amount))
          OutputSigLockedSingleOutput
      else none) = none := by
    split_ifs
    · unfold checkMinByteLength
      rw [if_neg hminlen]
      simp [checkTypeByte]
    · rfl
  have hslice1 : sliceFrom (OutputSigLockedSingleOutput :: (bs ++ LittleEndian.bytes r.Amount))
      SmallTypeDenotationByteSize = some (bs ++ LittleEndian.bytes r.Amount) := by
    simp [sliceFrom, SmallTypeDenotationByteSize]
  have hdec := hrt r.Address mode bs (LittleEndian.bytes r.Amount) hknown hwt hbs
  have hslice2 : sliceFrom (bs ++ LittleEndian.bytes r.Amount) bs.length
      = some (LittleEndian.bytes r.Amount) := by
    simp [sliceFrom]
  have hlen8 : ¬ (LittleEndian.bytes r.Amount).length < UInt64ByteSize := by
    rw [bytes_length]; decide
  have hcall2 : OutputsDepositAmountValidator.call c 0 (-1)
      { Address := r.Address, Amount := r.Amount } = (0, none) := hcall
  unfold SigLockedSingleOutput.Deserialize
  simp only [hpre, hslice1, hdec, hslice2, hlen8, if_false, Uint64_bytes r.Amount h64, hcall2]
  split_ifs
  · simp [SmallTypeDenotationByteSize, UInt64ByteSize, bytes_length]; omega
  · simp [SmallTypeDenotationByteSize, UInt64ByteSize, bytes_length]; omega

/-- C1 at the sample instance: an output of 258 tokens on an Ed25519 address,
in strict mode. -/
theorem C1_binary_round_trip_witness :
    ∃ b, SigLockedSingleOutput.Serialize sampleExternals 0
          { Address := sampleEd25519, Amount := 258 } DeSeriModePerformValidation
        = { sum := 0, data := b, err := none } ∧
      SigLockedSingleOutput.Deserialize sampleExternals 0 { Address := .other 0, Amount := 0 }
          b DeSeriModePerformValidation
        = some { sum := 0, s := { Address := sampleEd25519, Amount := 258 }, n := b.length,
                 err := none } :=
  C1_binary_round_trip sampleExternals sample_AddressSerializes sample_AddressFixedSize
    sample_AddressRoundTrip (by decide) { Address := sampleEd25519, Amount := 258 } rfl rfl
    (by decide) (by decide) (by decide) DeSeriModePerformValidation
    { Address := .other 0, Amount := 0 }

/-! ## The JSON codec -/

theorem uint64OfInt_intOfUint64 (x : Nat) (hx : x < 2 ^ 64) :
    uint64OfInt (intOfUint64 x) = x := by
  unfold uint64OfInt intOfUint64
  rw [Nat.mod_eq_of_lt hx]
  split_ifs <;> omega

theorem intOfUint64_small (x : Nat) (hx : x < 2 ^ 63) : intOfUint64 x = (x : Int) := by
  unfold intOfUint64
  rw [Nat.mod_eq_of_lt (by omega), if_pos hx]

theorem sample_AddressJSONRoundTrip : sampleExternals.AddressJSONRoundTrip := by
  intro a hknown hwt
  cases a with
  | WOTSAddress raw =>
    have hraw : raw.length = 49 := hwt
    exact ⟨0 :: raw, rfl, by
      show sampleAddressFromJSON (some (0 :: raw)) = _
      simp [sampleAddressFromJSON, hraw]⟩
  | Ed25519Address raw =>
    have hraw : raw.length = 32 := hwt
    exact ⟨1 :: raw, rfl, by
      show sampleAddressFromJSON (some (1 :: raw)) = _
      simp [sampleAddressFromJSON, hraw]⟩
  | SigLockedSingleOutput a n => cases hknown
  | other id => cases hknown

/-- C2: for every record with a WOTS or Ed25519 address and an amount that is
a `uint64` (so for every amount from 1 to `TokenSupply`), `MarshalJSON` gives
the document with type 0, the JSON of the address and the amount as an `int`,
and `UnmarshalJSON` of that document, that is `ToSerializable` applied to it,
succeeds with a record equal to the first; the conversions of the amount from
`uint64` to `int` and back are the identity (for address codecs whose JSON
decoder reads what their encoder writes). -/
theorem C2_textual_round_trip (c : Externals) (hjson : c.AddressJSONRoundTrip)
    (r : SigLockedSingleOutput) (hknown : r.Address.IsKnownAddress = true)
    (hwt : r.Address.WellTyped c) (h64 : r.Amount < 2 ^ 64) (s0 : SigLockedSingleOutput) :
    ∃ m, c.AddressMarshalJSON r.Address = .ok m ∧
      SigLockedSingleOutput.MarshalJSON c r
        = .ok { Ty := 0, Address := some m, Amount := intOfUint64 r.Amount } ∧
      jsonsiglockedsingleoutput.ToSerializable c
          { Ty := 0, Address := some m, Amount := intOfUint64 r.Amount }
        = .ok r.toSerializable ∧
      SigLockedSingleOutput.UnmarshalJSON c s0
          { Ty := 0, Address := some m, Amount := intOfUint64 r.Amount } = (r, none) ∧
      uint64OfInt (intOfUint64 r.Amount) = r.Amount ∧
      (r.Amount < 2 ^ 63 → intOfUint64 r.Amount = (r.Amount : Int)) := by
  obtain ⟨m, hm, hback⟩ := hjson r.Address hknown hwt
  have hcast := uint64OfInt_intOfUint64 r.Amount h64
  have hto : jsonsiglockedsingleoutput.ToSerializable c
      { Ty := 0, Address := some m, Amount := intOfUint64 r.Amount } = .ok r.toSerializable := by
    unfold jsonsiglockedsingleoutput.ToSerializable
    simp only [hback, hcast]
    rfl
  refine ⟨m, hm, ?_, hto, ?_, hcast, intOfUint64_small r.Amount⟩
  · unfold SigLockedSingleOutput.MarshalJSON
    simp only [hm]
    rfl
  · unfold SigLockedSingleOutput.UnmarshalJSON
    simp only [hto, asSigLockedSingleOutput_toSerializable]

/-- C2 at the sample instance: an output of the whole supply on a WOTS
address is read back from its document. -/
theorem C2_textual_round_trip_witness :
    ∃ m, sampleExternals.AddressMarshalJSON sampleWOTS = .ok m ∧
      SigLockedSingleOutput.UnmarshalJSON sampleExternals { Address := .other 0, Amount := 0 }
          { Ty := 0, Address := some m, Amount := intOfUint64 2779530283277761 }
        = ({ Address := sampleWOTS, Amount := 2779530283277761 }, none) :=
  (C2_textual_round_trip sampleExternals sample_AddressJSONRoundTrip
    { Address := sampleWOTS, Amount := 2779530283277761 } rfl rfl (by decide)
    { Address := .other 0, Amount := 0 }).imp (fun _ h => ⟨h.1, h.2.2.2.1⟩)

/-! ## The type guard of `ValidateOutputs` -/

theorem loop_append (pre more : List Serializable) :
    ∀ (i : Nat) (funcs : List OutputsValidatorFunc),
      ValidateOutputs.loop i (pre ++ more) funcs =
        match (ValidateOutputs.loop i pre funcs).2 with
        | some _ => ValidateOutputs.loop i pre funcs
        | none =>
          ValidateOutputs.loop (i + pre.length) more (ValidateOutputs.loop i pre funcs).1 := by
  induction pre with
  | nil =>
    intro i funcs
    simp [ValidateOutputs.loop]
  | cons x xs ih =>
    intro i funcs
    rw [List.cons_append, ValidateOutputs.loop, ValidateOutputs.loop]
    cases hx : x.asSigLockedSingleOutput with
    | none => rfl
    | some dep =>
      dsimp only
      cases hin : (ValidateOutputs.inner (i : Int) dep funcs).2 with
      | some err => rfl
      | none =>
        dsimp only
        rw [ih (i + 1)]
        have hidx : i + 1 + xs.length = i + (x :: xs).length := by
          rw [List.length_cons]; omega
        rw [hidx]

/-- C11: when an element of the sequence is not a `SigLockedSingleOutput`, the
elements before it are, and no validator invocation on those fails, then
`ValidateOutputs` returns `ErrUnknownOutputType`, and the validators are as
the elements before left them: none is invoked on that element or on a later
one, whatever the later ones are. -/
theorem C11_type_guard (deps : List SigLockedSingleOutput) (x : Serializable)
    (rest : List Serializable) (funcs : List OutputsValidatorFunc)
    (hx : x.asSigLockedSingleOutput = none)
    (hpre : (ValidateOutputs (deps.map (·.toSerializable)) funcs).2 = none) :
    ValidateOutputs (deps.map (·.toSerializable) ++ x :: rest) funcs
      = ((ValidateOutputs (deps.map (·.toSerializable)) funcs).1,
          some .ErrUnknownOutputType) := by
  unfold ValidateOutputs at hpre ⊢
  rw [loop_append, hpre]
  dsimp only
  rw [ValidateOutputs.loop, hx]

/-- C11 at the sample instance: an address in second place, after an output
that passes the deposit amount validator. -/
theorem C11_type_guard_witness :
    (ValidateOutputs
        [.SigLockedSingleOutput sampleEd25519 5, sampleWOTS,
         .SigLockedSingleOutput sampleWOTS 0]
        [OutputsDepositAmountValidator sampleExternals]).2
      = some .ErrUnknownOutputType :=
  congrArg Prod.snd
    (C11_type_guard [{ Address := sampleEd25519, Amount := 5 }] sampleWOTS
      [.SigLockedSingleOutput sampleWOTS 0] [OutputsDepositAmountValidator sampleExternals]
      rfl (by decide))

/-! ## What `Deserialize` reads -/

theorem sliceFrom_eq_some (data : List Byte) (k : Nat) (d : List Byte)
    (h : sliceFrom data k = some d) : k ≤ data.length ∧ d = data.drop k := by
  unfold sliceFrom at h
  split_ifs at h with hk
  cases h
  exact ⟨hk, rfl⟩

theorem Deserialize_ok_inv (c : Externals) (sum : Nat) (s : SigLockedSingleOutput)
    (data : List Byte) (mode : DeSerializationMode) (r : DeserializeReturn)
    (h : SigLockedSingleOutput.Deserialize c sum s data mode = some r) (hok : r.err = none) :
    ∃ (addr : Serializable) (k amount : Nat),
      (mode.HasMode DeSeriModePerformValidation = true →
        ¬ data.length < SigLockedSingleOutputBytesMinSize c ∧
        checkTypeByte data OutputSigLockedSingleOutput = none ∧
        (OutputsDepositAmountValidator.call c sum (-1)
          { Address := addr, Amount := amount }).2 = none) ∧
      SmallTypeDenotationByteSize ≤ data.length ∧
      c.DeserializeObject (data.drop SmallTypeDenotationByteSize) mode = .ok (addr, k) ∧
      k ≤ (data.drop SmallTypeDenotationByteSize).length ∧
      ¬ ((data.drop SmallTypeDenotationByteSize).drop k).length < UInt64ByteSize ∧
      LittleEndian.Uint64 ((data.drop SmallTypeDenotationByteSize).drop k) = some amount ∧
      r = { sum := sum, s := { Address := addr, Amount := amount },
            n := SmallTypeDenotationByteSize + k + UInt64ByteSize, err := none } := by
  unfold SigLockedSingleOutput.Deserialize at h
  split at h
  · cases h; cases hok
  · rename_i hpre
    split at h
    · cases h
    · rename_i data1 hs1
      split at h
      · cases h; cases hok
      · rename_i addr k hdec
        split at h
        · cases h
        · rename_i data2 hs2
          split at h
          · cases h; cases hok
          · rename_i hlen
            split at h
            · cases h
            · rename_i amount hu
              obtain ⟨h1, rfl⟩ := sliceFrom_eq_some _ _ _ hs1
              obtain ⟨h2, rfl⟩ := sliceFrom_eq_some _ _ _ hs2
              refine ⟨addr, k, amount, ?_, h1, hdec, h2, hlen, hu, ?_⟩
              · intro hm
                rw [if_pos hm] at hpre
                rw [if_pos hm] at h
                unfold checkMinByteLength at hpre
                refine ⟨?_, ?_, ?_⟩
                · intro hlt
                  rw [if_pos hlt] at hpre
                  cases hpre
                · by_cases hlt : data.length < SigLockedSingleOutputBytesMinSize c
                  · rw [if_pos hlt] at hpre
                    cases hpre
                  · rw [if_neg hlt] at hpre
                    exact hpre
                · split at h
                  · cases h; cases hok
                  · rename_i heq
                    rw [heq]
              · by_cases hm : mode.HasMode DeSeriModePerformValidation = true
                · rw [if_pos hm] at h
                  split at h
                  · cases h; cases hok
                  · rename_i heq
                    have hs := congrArg Prod.fst heq
                    rw [depositCall_sentinel_sum] at hs
                    cases h
                    have hs1 : sum = _ := hs
                    simp only at hs1
                    rw [← hs1]
                · rw [if_neg hm] at h
                  cases h
                  rfl

theorem Deserialize_of_decode (c : Externals) (sum : Nat) (s : SigLockedSingleOutput)
    (data : List Byte) (mode : DeSerializationMode) (addr : Serializable) (k amount : Nat)
    (hg : mode.HasMode DeSeriModePerformValidation = true →
        ¬ data.length < SigLockedSingleOutputBytesMinSize c ∧
        checkTypeByte data OutputSigLockedSingleOutput = none ∧
        (OutputsDepositAmountValidator.call c sum (-1)
          { Address := addr, Amount := amount }).2 = none)
    (h1 : SmallTypeDenotationByteSize ≤ data.length)
    (hdec : c.DeserializeObject (data.drop SmallTypeDenotationByteSize) mode = .ok (addr, k))
    (h2 : k ≤ (data.drop SmallTypeDenotationByteSize).length)
    (hlen : ¬ ((data.drop SmallTypeDenotationByteSize).drop k).length < UInt64ByteSize)
    (hu : LittleEndian.Uint64 ((data.drop SmallTypeDenotationByteSize).drop k) = some amount) :
    SigLockedSingleOutput.Deserialize c sum s data mode =
      some { sum := sum, s := { Address := addr, Amount := amount },
             n := SmallTypeDenotationByteSize + k + UInt64ByteSize, err := none } := by
  have hpre : (if mode.HasMode DeSeriModePerformValidation = true then
      match checkMinByteLength (SigLockedSingleOutputBytesMinSize c) data.length with
      | some err => some err
      | none => checkTypeByte data OutputSigLockedSingleOutput
      else none) = none := by
    split_ifs with hm
    · unfold checkMinByteLength
      rw [if_neg (hg hm).1]
      exact (hg hm).2.1
    · rfl
  have hs1 : sliceFrom data SmallTypeDenotationByteSize
      = some (data.drop SmallTypeDenotationByteSize) := by
    unfold sliceFrom; rw [if_pos h1]
  have hs2 : sliceFrom (data.drop SmallTypeDenotationByteSize) k
      = some ((data.drop SmallTypeDenotationByteSize).drop k) := by
    unfold sliceFrom; rw [if_pos h2]
  unfold SigLockedSingleOutput.Deserialize
  simp only [hpre, hs1, hdec, hs2, hlen, if_false, hu]
  split_ifs with hm
  · have hc : OutputsDepositAmountValidator.call c sum (-1)
        { Address := addr, Amount := amount } = (sum, none) :=
      Prod.ext (depositCall_sentinel_sum c sum _) (hg hm).2.2
    simp only [hc]
  · rfl

theorem checkTypeByte_append (data extra : List Byte) (t : Byte)
    (h : checkTypeByte data t = none) : checkTypeByte (data ++ extra) t = none := by
  cases data with
  | nil => cases h
  | cons b bs => exact h

theorem Uint64_append (x extra : List Byte) (hx : ¬ x.length < 8) :
    LittleEndian.Uint64 (x ++ extra) = LittleEndian.Uint64 x := by
  unfold LittleEndian.Uint64
  rw [if_neg hx, if_neg (by rw [List.length_append]; omega),
    List.take_append_of_le_length (by omega)]

theorem Uint64_take (x : List Byte) (hx : ¬ x.length < 8) :
    LittleEndian.Uint64 (x.take 8) = LittleEndian.Uint64 x := by
  unfold LittleEndian.Uint64
  rw [if_neg hx, if_neg (by rw [List.length_take]; omega), List.take_take]
  simp

/-- C12: when `Deserialize` succeeds, the count it returns is 1 plus the
bytes read by the address decoder plus 8 and is at most the length of the
input, the amount is the little-endian value of the input bytes from `n - 8`
to `n`, and the same input followed by any bytes gives the same result (for
an address decoder that looks only at the bytes it reads). -/
theorem C12_bytes_consumed (c : Externals) (sum : Nat) (s : SigLockedSingleOutput)
    (data : List Byte) (mode : DeSerializationMode) (r : DeserializeReturn)
    (h : SigLockedSingleOutput.Deserialize c sum s data mode = some r) (hok : r.err = none) :
    ∃ (addr : Serializable) (k : Nat),
      c.DeserializeObject (data.drop 1) mode = .ok (addr, k) ∧
      r.s.Address = addr ∧
      r.n = 1 + k + 8 ∧
      r.n ≤ data.length ∧
      LittleEndian.Uint64 ((data.drop (r.n - 8)).take 8) = some r.s.Amount ∧
      (c.AddressPrefixStable → ∀ extra : List Byte,
        SigLockedSingleOutput.Deserialize c sum s (data ++ extra) mode = some r) := by
  obtain ⟨addr, k, amount, hg, h1, hdec, h2, hlen, hu, hr⟩ :=
    Deserialize_ok_inv c sum s data mode r h hok
  subst hr
  simp only [SmallTypeDenotationByteSize, UInt64ByteSize] at h1 hdec h2 hlen hu ⊢
  have hl : (data.drop 1).length = data.length - 1 := List.length_drop 1 data
  have hl2 : ((data.drop 1).drop k).length = data.length - 1 - k := by
    rw [List.length_drop, hl]
  refine ⟨addr, k, hdec, rfl, rfl, by omega, ?_, ?_⟩
  · have hd : data.drop (1 + k + 8 - 8) = (data.drop 1).drop k := by
      have hidx : 1 + k + 8 - 8 = 1 + k := by omega
      rw [List.drop_drop, hidx]
    rw [hd, Uint64_take _ hlen, hu]
  · intro hstable extra
    have hdrop : (data ++ extra).drop 1 = data.drop 1 ++ extra :=
      List.drop_append_of_le_length h1
    have hdrop2 : (data.drop 1 ++ extra).drop k = (data.drop 1).drop k ++ extra :=
      List.drop_append_of_le_length h2
    refine Deserialize_of_decode c sum s (data ++ extra) mode addr k amount ?_ ?_ ?_ ?_ ?_ ?_
    · intro hm
      refine ⟨?_, checkTypeByte_append _ _ _ (hg hm).2.1, (hg hm).2.2⟩
      have := (hg hm).1
      rw [List.length_append]
      omega
    · simp only [SmallTypeDenotationByteSize, List.length_append]; omega
    · simp only [SmallTypeDenotationByteSize]
      rw [hdrop]
      exact hstable _ _ _ _ extra hdec h2
    · simp only [SmallTypeDenotationByteSize]
      rw [hdrop, List.length_append]; omega
    · simp only [SmallTypeDenotationByteSize, UInt64ByteSize]
      rw [hdrop, hdrop2, List.length_append]; omega
    · simp only [SmallTypeDenotationByteSize]
      rw [hdrop, hdrop2, Uint64_append _ _ hlen, hu]

theorem copy_make_of_le (n : Nat) (x : List Byte) (h : n ≤ x.length) :
    copy (make n) x = x.take n := by
  unfold copy make
  rw [List.length_replicate, List.drop_eq_nil_of_le (by rw [List.length_replicate]; exact h),
    List.append_nil]

theorem sample_AddressPrefixStable : sampleExternals.AddressPrefixStable := by
  intro data mode a k extra h hk
  show sampleDeserializeObject (data ++ extra) mode = _
  replace h : sampleDeserializeObject data mode = .ok (a, k) := h
  unfold sampleDeserializeObject at h ⊢
  by_cases hlen : data.length < 2
  · rw [if_pos hlen] at h; cases h
  · rw [if_neg hlen] at h
    rw [if_neg (by rw [List.length_append]; omega)]
    cases data with
    | nil => simp at hlen
    | cons b t =>
      obtain ⟨v, hv⟩ := b
      simp only [List.cons_append, List.head?_cons, List.drop_succ_cons, List.drop_zero,
        List.length_cons, List.length_append] at h hk ⊢
      match v, hv with
      | 0, hv =>
        simp only at h ⊢
        split_ifs at h with hc
        simp only [Except.ok.injEq, Prod.mk.injEq] at h
        obtain ⟨rfl, rfl⟩ := h
        rw [if_neg (by intro hx; omega)]
        rw [copy_make_of_le 49 t (by omega), copy_make_of_le 49 (t ++ extra)
          (by rw [List.length_append]; omega), List.take_append_of_le_length (by omega)]
      | 1, hv =>
        simp only at h ⊢
        split_ifs at h with hc
        simp only [Except.ok.injEq, Prod.mk.injEq] at h
        obtain ⟨rfl, rfl⟩ := h
        rw [if_neg (by intro hx; omega)]
        rw [copy_make_of_le 32 t (by omega), copy_make_of_le 32 (t ++ extra)
          (by rw [List.length_append]; omega), List.take_append_of_le_length (by omega)]
      | n + 2, hv =>
        simp only at h
        cases h

/-- C12 at the sample instance: the 42 bytes of an output followed by three
more bytes are decoded to the same record with the same count. -/
theorem C12_bytes_consumed_witness :
    SigLockedSingleOutput.Deserialize sampleExternals 0 { Address := .other 0, Amount := 0 }
        ((0 :: 1 :: (List.replicate 32 7 ++ [2, 1, 0, 0, 0, 0, 0, 0])) ++ [9, 9, 9])
        DeSeriModePerformValidation
      = some { sum := 0, s := { Address := sampleEd25519, Amount := 258 }, n := 42,
               err := none } :=
  (C12_bytes_consumed sampleExternals 0 { Address := .other 0, Amount := 0 }
    (0 :: 1 :: (List.replicate 32 7 ++ [2, 1, 0, 0, 0, 0, 0, 0])) DeSeriModePerformValidation
    { sum := 0, s := { Address := sampleEd25519, Amount := 258 }, n := 42, err := none }
    (by decide) rfl).elim
    (fun _ h => h.elim (fun _ h => h.2.2.2.2.2 sample_AddressPrefixStable [9, 9, 9]))

/-! ## Unknown address kinds and output types -/

/-- C13, as stated, fails: in strict mode the amount is validated before the
address kind is looked at, so a record with an unknown address kind and
amount 0 gets the amount error, not `ErrUnknownAddrType`. -/
theorem C13_counterexample_amount_error_first :
    SigLockedSingleOutput.Serialize sampleExternals 0 { Address := .other 7, Amount := 0 }
        DeSeriModePerformValidation
      = { sum := 0, data := [], err := some (.ErrDepositAmountMustBeGreaterThanZero (-1)) } := by
  decide

/-- C13, amended: for every record whose address is neither a WOTS nor an
Ed25519 address, `Serialize` returns no bytes and an error: the error is
`ErrUnknownAddrType` when the mode has no validation or the amount validation
passes, and the error of the amount validation when that fails. -/
theorem C13_unknown_address_kind (c : Externals) (sum : Nat) (r : SigLockedSingleOutput)
    (mode : DeSerializationMode) (hunk : r.Address.IsKnownAddress = false) :
    (SigLockedSingleOutput.Serialize c sum r mode).data = [] ∧
    (mode.HasMode DeSeriModePerformValidation = false →
      (SigLockedSingleOutput.Serialize c sum r mode).err = some .ErrUnknownAddrType) ∧
    (mode.HasMode DeSeriModePerformValidation = true →
      (OutputsDepositAmountValidator.call c sum (-1) r).2 = none →
      (SigLockedSingleOutput.Serialize c sum r mode).err = some .ErrUnknownAddrType) ∧
    (mode.HasMode DeSeriModePerformValidation = true → ∀ e,
      (OutputsDepositAmountValidator.call c sum (-1) r).2 = some e →
      (SigLockedSingleOutput.Serialize c sum r mode).err = some e) := by
  have hsize : (match r.Address with
      | .WOTSAddress _ => some (SigLockedSingleOutputWOTSAddrBytesSize c)
      | .Ed25519Address _ => some (SigLockedSingleOutputEd25519AddrBytesSize c)
      | _ => none) = none := by
    cases ha : r.Address with
    | WOTSAddress raw => rw [ha] at hunk; cases hunk
    | Ed25519Address raw => rw [ha] at hunk; cases hunk
    | SigLockedSingleOutput a n => rfl
    | other id => rfl
  unfold SigLockedSingleOutput.Serialize
  simp only [hsize]
  refine ⟨?_, ?_, ?_, ?_⟩
  · split <;> rfl
  · intro hm
    simp [hm]
  · intro hm hv
    simp [hm, hv]
  · intro hm e hv
    simp [hm, hv]

/-- C13, amended, at the sample instance: an unknown address kind with a valid
amount, in strict mode. -/
theorem C13_unknown_address_kind_witness :
    (SigLockedSingleOutput.Serialize sampleExternals 0 { Address := .other 7, Amount := 5 }
        DeSeriModePerformValidation).err = some .ErrUnknownAddrType :=
  (C13_unknown_address_kind sampleExternals 0 { Address := .other 7, Amount := 5 }
    DeSeriModePerformValidation rfl).2.2.1 (by decide) (by decide)

theorem byteOfInt_eq_zero_iff (ty : Int) : byteOfInt ty = (0 : Byte) ↔ ty % 256 = 0 := by
  unfold byteOfInt
  rw [Fin.ext_iff]
  simp only [Fin.val_zero]
  omega

theorem byteOf_eq_zero_iff (t : Nat) : byteOf t = (0 : Byte) ↔ t % 256 = 0 := by
  unfold byteOf
  rw [Fin.ext_iff]
  simp only [Fin.val_zero]

/-- C14 on the code: each selector converts its tag to a byte before the
switch, so it returns the decoder exactly for the tags that are 0 modulo 256
and the unknown-output-type error for the others; the tag 256 is taken for
the tag 0 by both. -/
theorem C14_selectors_truncate_the_tag :
    OutputSelector 256 = .ok .SigLockedSingleOutput ∧
    jsonoutputselector 256 = .ok .jsonsiglockedsingleoutput ∧
    (∀ outputType : Nat, OutputSelector outputType =
      if outputType % 256 = 0 then .ok .SigLockedSingleOutput
      else .error (.ErrUnknownOutputTypeOf outputType)) ∧
    (∀ ty : Int, jsonoutputselector ty =
      if ty % 256 = 0 then .ok .jsonsiglockedsingleoutput
      else .error .ErrUnknownOutputType) := by
  refine ⟨rfl, rfl, ?_, ?_⟩
  · intro outputType
    unfold OutputSelector OutputSigLockedSingleOutput
    by_cases h : outputType % 256 = 0
    · rw [if_pos h, if_pos ((byteOf_eq_zero_iff _).2 h)]
    · rw [if_neg h, if_neg (fun hb => h ((byteOf_eq_zero_iff _).1 hb))]
  · intro ty
    unfold jsonoutputselector OutputSigLockedSingleOutput
    by_cases h : ty % 256 = 0
    · rw [if_pos h, if_pos ((byteOfInt_eq_zero_iff _).2 h)]
    · rw [if_neg h, if_neg (fun hb => h ((byteOfInt_eq_zero_iff _).1 hb))]

/-! ## The uniqueness validator and the index -1 -/

/-- C15, as stated, fails: the uniqueness validator stores the address also
when the index is -1, so a second call with the same address fails, naming
-1 as the index of the first. -/
theorem C15_counterexample_sentinel_is_stored :
    (OutputsAddrUniqueValidator.invokeAll
      [(-1, { Address := sampleEd25519, Amount := 5 }),
       (0, { Address := sampleEd25519, Amount := 5 })]).2
      = [none, some (.ErrOutputAddrNotUnique (-1) 0)] := by
  decide

/-- C15, amended: the uniqueness validator has no mode without accumulation.
A successful call with any index, -1 included, adds the key of the address
with that index to the set, after which every call with an address of the
same key fails with the duplicate-address error naming that index; a failing
call leaves the set as it was. -/
theorem C15_unique_validator_stores_every_index (set : AddrSet) (index : Int)
    (dep : SigLockedSingleOutput) :
    ((OutputsAddrUniqueValidator.call set index dep).2 = none →
      (OutputsAddrUniqueValidator.call set index dep).1
        = (OutputsAddrUniqueValidator.key dep.Address, index) :: set ∧
      ∀ (index1 : Int) (dep1 : SigLockedSingleOutput),
        OutputsAddrUniqueValidator.key dep1.Address
          = OutputsAddrUniqueValidator.key dep.Address →
        OutputsAddrUniqueValidator.call
            (OutputsAddrUniqueValidator.call set index dep).1 index1 dep1
          = ((OutputsAddrUniqueValidator.call set index dep).1,
              some (.ErrOutputAddrNotUnique index index1))) ∧
    (∀ e, (OutputsAddrUniqueValidator.call set index dep).2 = some e →
      (OutputsAddrUniqueValidator.call set index dep).1 = set) := by
  cases hl : List.lookup (OutputsAddrUniqueValidator.key dep.Address) set with
  | none =>
    have hc : OutputsAddrUniqueValidator.call set index dep
        = ((OutputsAddrUniqueValidator.key dep.Address, index) :: set, none) := by
      unfold OutputsAddrUniqueValidator.call
      simp only [hl]
    rw [hc]
    refine ⟨fun _ => ⟨rfl, ?_⟩, fun e he => by simp at he⟩
    intro index1 dep1 hkey
    unfold OutputsAddrUniqueValidator.call
    simp only [hkey, List.lookup_cons_self]
  | some j =>
    have hc : OutputsAddrUniqueValidator.call set index dep
        = (set, some (.ErrOutputAddrNotUnique j index)) := by
      unfold OutputsAddrUniqueValidator.call
      simp only [hl]
    rw [hc]
    refine ⟨fun h => by simp at h, fun e _ => rfl⟩

/-- C15, amended, at the sample instance: a call with index -1 on the fresh
validator stores the address with -1. -/
theorem C15_unique_validator_stores_every_index_witness :
    (OutputsAddrUniqueValidator.call [] (-1) { Address := sampleEd25519, Amount := 5 }).1
      = [(List.replicate 32 7, -1)] :=
  ((C15_unique_validator_stores_every_index [] (-1)
    { Address := sampleEd25519, Amount := 5 }).1 rfl).1

/-! ## The `type` field of the document -/

/-- C17, as stated, fails: a document whose `type` is 5 is decoded to a record
without an error, by `UnmarshalJSON` on the parsed struct and by
`ToSerializable`. -/
theorem C17_counterexample_type_not_checked :
    SigLockedSingleOutput.UnmarshalJSON sampleExternals { Address := .other 0, Amount := 0 }
        { Ty := 5, Address := some (1 :: List.replicate 32 7), Amount := 258 }
      = ({ Address := sampleEd25519, Amount := 258 }, none) ∧
    jsonsiglockedsingleoutput.ToSerializable sampleExternals
        { Ty := 5, Address := some (1 :: List.replicate 32 7), Amount := 258 }
      = .ok (.SigLockedSingleOutput sampleEd25519 258) :=
  ⟨by decide, rfl⟩

/-- C17, amended: no type-mismatch check is made on the `type` field. For a
struct with `int` fields, `ToSerializable` gives the same result whatever
`int` the `type` is: the record of the decoded address and `uint64(amount)`
when the address decodes, the error of the address decoding when it does not.
`UnmarshalJSON` returns the error of `json.Unmarshal` when the bytes do not
parse into the struct, leaving the receiver untouched, and what
`ToSerializable` gives for the parsed struct otherwise. -/
theorem C17_type_field_is_not_read (c : Externals) (j : jsonsiglockedsingleoutput) (ty : Int)
    (hj : j.WellTyped) (hlo : -2 ^ 63 ≤ ty) (hhi : ty < 2 ^ 63) :
    jsonsiglockedsingleoutput.WellTyped { j with Ty := ty } ∧
    jsonsiglockedsingleoutput.ToSerializable c { j with Ty := ty }
      = jsonsiglockedsingleoutput.ToSerializable c j ∧
    (∀ addr, c.AddressFromJSON j.Address = .ok addr →
      jsonsiglockedsingleoutput.ToSerializable c { j with Ty := ty }
        = .ok (.SigLockedSingleOutput addr (uint64OfInt j.Amount))) ∧
    (∀ e, c.AddressFromJSON j.Address = .error e →
      jsonsiglockedsingleoutput.ToSerializable c { j with Ty := ty } = .error e) ∧
    (∀ (unmarshal : List Byte → Except Err jsonsiglockedsingleoutput)
        (s : SigLockedSingleOutput) (bytes : List Byte),
      (∀ e, unmarshal bytes = .error e →
        SigLockedSingleOutput.UnmarshalJSON.ofBytes c unmarshal s bytes = (s, some e)) ∧
      (unmarshal bytes = .ok { j with Ty := ty } →
        (∀ addr, c.AddressFromJSON j.Address = .ok addr →
          SigLockedSingleOutput.UnmarshalJSON.ofBytes c unmarshal s bytes
            = ({ Address := addr, Amount := uint64OfInt j.Amount }, none)) ∧
        (∀ e, c.AddressFromJSON j.Address = .error e →
          SigLockedSingleOutput.UnmarshalJSON.ofBytes c unmarshal s bytes
            = (s, some e)))) := by
  have hok : ∀ addr, c.AddressFromJSON j.Address = .ok addr →
      jsonsiglockedsingleoutput.ToSerializable c { j with Ty := ty }
        = .ok (.SigLockedSingleOutput addr (uint64OfInt j.Amount)) := by
    intro addr h
    unfold jsonsiglockedsingleoutput.ToSerializable
    simp only [h]
  have herr : ∀ e, c.AddressFromJSON j.Address = .error e →
      jsonsiglockedsingleoutput.ToSerializable c { j with Ty := ty } = .error e := by
    intro e h
    unfold jsonsiglockedsingleoutput.ToSerializable
    simp only [h]
  refine ⟨⟨hlo, hhi, hj.2.2.1, hj.2.2.2⟩, rfl, hok, herr, ?_⟩
  intro unmarshal s bytes
  refine ⟨?_, ?_⟩
  · intro e h
    unfold SigLockedSingleOutput.UnmarshalJSON.ofBytes
    simp only [h]
  · intro h
    refine ⟨?_, ?_⟩
    · intro addr ha
      unfold SigLockedSingleOutput.UnmarshalJSON.ofBytes SigLockedSingleOutput.UnmarshalJSON
      simp only [h, hok addr ha, Serializable.asSigLockedSingleOutput]
    · intro e ha
      unfold SigLockedSingleOutput.UnmarshalJSON.ofBytes SigLockedSingleOutput.UnmarshalJSON
      simp only [h, herr e ha]

/-- C17, amended, at the sample instance: the document with `type` 5 gives
what the document with `type` 0 gives. -/
theorem C17_type_field_is_not_read_witness :
    jsonsiglockedsingleoutput.ToSerializable sampleExternals
        { Ty := 5, Address := some (1 :: List.replicate 32 7), Amount := 258 }
      = jsonsiglockedsingleoutput.ToSerializable sampleExternals
        { Ty := 0, Address := some (1 :: List.replicate 32 7), Amount := 258 } :=
  (C17_type_field_is_not_read sampleExternals
    { Ty := 0, Address := some (1 :: List.replicate 32 7), Amount := 258 } 5
    ⟨by decide, by decide, by decide, by decide⟩ (by decide) (by decide)).2.1

/-! ## Strict mode and the amount -/

theorem depositCall_zero (c : Externals) (sum : Nat) (index : Int)
    (dep : SigLockedSingleOutput) (h : dep.Amount = 0) :
    OutputsDepositAmountValidator.call c sum index dep
      = (sum, some (.ErrDepositAmountMustBeGreaterThanZero index)) := by
  unfold OutputsDepositAmountValidator.call
  rw [if_pos h]

theorem depositCall_above (c : Externals) (sum : Nat) (index : Int)
    (dep : SigLockedSingleOutput) (h : dep.Amount > c.TokenSupply) :
    OutputsDepositAmountValidator.call c sum index dep
      = (sum, some (.ErrOutputDepositsMoreThanTotalSupply index)) := by
  unfold OutputsDepositAmountValidator.call
  rw [if_neg (by omega), if_pos h]

theorem Serialize_validation_error (c : Externals) (sum : Nat) (r : SigLockedSingleOutput)
    (mode : DeSerializationMode) (e : Err)
    (hm : mode.HasMode DeSeriModePerformValidation = true)
    (hv : OutputsDepositAmountValidator.call c sum (-1) r = (sum, some e)) :
    SigLockedSingleOutput.Serialize c sum r mode = { sum := sum, data := [], err := some e } := by
  unfold SigLockedSingleOutput.Serialize
  simp only [hm, if_true, hv]

theorem Deserialize_validation_error (c : Externals) (sum : Nat) (s : SigLockedSingleOutput)
    (data : List Byte) (mode : DeSerializationMode) (addr : Serializable) (k amount : Nat)
    (e : Err)
    (hm : mode.HasMode DeSeriModePerformValidation = true)
    (hmin : ¬ data.length < SigLockedSingleOutputBytesMinSize c)
    (hty : checkTypeByte data OutputSigLockedSingleOutput = none)
    (h1 : SmallTypeDenotationByteSize ≤ data.length)
    (hdec : c.DeserializeObject (data.drop SmallTypeDenotationByteSize) mode = .ok (addr, k))
    (h2 : k ≤ (data.drop SmallTypeDenotationByteSize).length)
    (hlen : ¬ ((data.drop SmallTypeDenotationByteSize).drop k).length < UInt64ByteSize)
    (hu : LittleEndian.Uint64 ((data.drop SmallTypeDenotationByteSize).drop k) = some amount)
    (hv : OutputsDepositAmountValidator.call c sum (-1) { Address := addr, Amount := amount }
      = (sum, some e)) :
    SigLockedSingleOutput.Deserialize c sum s data mode =
      some { sum := sum, s := { Address := addr, Amount := amount }, n := 0, err := some e } := by
  have hpre : (if mode.HasMode DeSeriModePerformValidation = true then
      match checkMinByteLength (SigLockedSingleOutputBytesMinSize c) data.length with
      | some err => some err
      | none => checkTypeByte data OutputSigLockedSingleOutput
      else none) = none := by
    rw [if_pos hm]
    unfold checkMinByteLength
    rw [if_neg hmin]
    exact hty
  have hs1 : sliceFrom data SmallTypeDenotationByteSize
      = some (data.drop SmallTypeDenotationByteSize) := by
    unfold sliceFrom; rw [if_pos h1]
  have hs2 : sliceFrom (data.drop SmallTypeDenotationByteSize) k
      = some ((data.drop SmallTypeDenotationByteSize).drop k) := by
    unfold sliceFrom; rw [if_pos h2]
  unfold SigLockedSingleOutput.Deserialize
  simp only [hpre, hs1, hdec, hs2, hlen, if_false, hu]
  simp only [hm, if_true, hv]

theorem packageSumAfter_eq (c : Externals) :
    ∀ (calls : List CodecCall) (sum sum1 : Nat),
      packageSumAfter c sum calls = some sum1 → sum1 = sum := by
  intro calls
  induction calls with
  | nil =>
    intro sum sum1 h
    simp only [packageSumAfter, Option.some.injEq] at h
    exact h.symm
  | cons call rest ih =>
    intro sum sum1 h
    cases call with
    | serialize s mode =>
      rw [packageSumAfter, Serialize_sum] at h
      exact ih sum sum1 h
    | deserialize s data mode =>
      rw [packageSumAfter] at h
      cases hd : SigLockedSingleOutput.Deserialize c sum s data mode with
      | none => rw [hd] at h; cases h
      | some r =>
        rw [hd] at h
        dsimp only at h
        rw [Deserialize_sum c sum s data mode r hd] at h
        exact ih sum sum1 h

/-- C16: in strict mode, whatever the sum of the package-level validator is,
a successful `Serialize` is of a record with 1 <= amount <= `TokenSupply`, a
successful `Deserialize` leaves a record with 1 <= amount <= `TokenSupply`,
`Serialize` of an amount 0 or above `TokenSupply` fails with the error of
that case, and so does `Deserialize` of bytes that pass the guards and the
address decoder and hold such an amount; and no list of codec calls changes
the sum of the package-level validator. -/
theorem C16_strict_mode_amount_invariant (c : Externals) (sum : Nat)
    (mode : DeSerializationMode)
    (hm : mode.HasMode DeSeriModePerformValidation = true) :
    (∀ r, (SigLockedSingleOutput.Serialize c sum r mode).err = none →
      1 ≤ r.Amount ∧ r.Amount ≤ c.TokenSupply) ∧
    (∀ s data res, SigLockedSingleOutput.Deserialize c sum s data mode = some res →
      res.err = none → 1 ≤ res.s.Amount ∧ res.s.Amount ≤ c.TokenSupply) ∧
    (∀ r : SigLockedSingleOutput, r.Amount = 0 →
      SigLockedSingleOutput.Serialize c sum r mode
        = { sum := sum, data := [],
            err := some (.ErrDepositAmountMustBeGreaterThanZero (-1)) }) ∧
    (∀ r : SigLockedSingleOutput, r.Amount > c.TokenSupply →
      SigLockedSingleOutput.Serialize c sum r mode
        = { sum := sum, data := [],
            err := some (.ErrOutputDepositsMoreThanTotalSupply (-1)) }) ∧
    (∀ (s : SigLockedSingleOutput) (data : List Byte) (addr : Serializable) (k amount : Nat),
      ¬ data.length < SigLockedSingleOutputBytesMinSize c →
      checkTypeByte data OutputSigLockedSingleOutput = none →
      c.DeserializeObject (data.drop 1) mode = .ok (addr, k) →
      k + 8 ≤ (data.drop 1).length →
      LittleEndian.Uint64 ((data.drop 1).drop k) = some amount →
      (amount = 0 →
        SigLockedSingleOutput.Deserialize c sum s data mode
          = some { sum := sum, s := { Address := addr, Amount := amount }, n := 0,
                   err := some (.ErrDepositAmountMustBeGreaterThanZero (-1)) }) ∧
      (amount > c.TokenSupply →
        SigLockedSingleOutput.Deserialize c sum s data mode
          = some { sum := sum, s := { Address := addr, Amount := amount }, n := 0,
                   err := some (.ErrOutputDepositsMoreThanTotalSupply (-1)) })) ∧
    (∀ calls sum1, packageSumAfter c sum calls = some sum1 → sum1 = sum) := by
  refine ⟨?_, ?_, ?_, ?_, ?_, ?_⟩
  · intro r hok
    have hv := (Serialize_ok_address c sum r mode hok).1 hm
    have := (depositCall_ok_iff c sum (-1) r).1 hv
    omega
  · intro s data res h hok
    obtain ⟨addr, k, amount, hg, _, _, _, _, _, hr⟩ :=
      Deserialize_ok_inv c sum s data mode res h hok
    subst hr
    have := (depositCall_ok_iff c sum (-1) _).1 (hg hm).2.2
    dsimp only at this ⊢
    omega
  · intro r h0
    exact Serialize_validation_error c sum r mode _ hm (depositCall_zero c sum (-1) r h0)
  · intro r hgt
    exact Serialize_validation_error c sum r mode _ hm (depositCall_above c sum (-1) r hgt)
  · intro s data addr k amount hmin hty hdec hk hu
    have h1 : SmallTypeDenotationByteSize ≤ data.length := by
      cases data with
      | nil => cases hty
      | cons b bs => simp [SmallTypeDenotationByteSize]
    have hlen : ¬ ((data.drop SmallTypeDenotationByteSize).drop k).length < UInt64ByteSize := by
      simp only [SmallTypeDenotationByteSize, UInt64ByteSize, List.length_drop] at hk ⊢
      omega
    constructor
    · intro h0
      exact Deserialize_validation_error c sum s data mode addr k amount _ hm hmin hty h1 hdec
        (by simp only [SmallTypeDenotationByteSize]; omega) hlen hu
        (depositCall_zero c sum (-1) _ h0)
    · intro hgt
      exact Deserialize_validation_error c sum s data mode addr k amount _ hm hmin hty h1 hdec
        (by simp only [SmallTypeDenotationByteSize]; omega) hlen hu
        (depositCall_above c sum (-1) _ hgt)
  · exact fun calls sum1 h => packageSumAfter_eq c calls sum sum1 h

/-- C16 at the sample instance: strict `Serialize` of an amount above the
supply fails with the amount-exceeds-supply error. -/
theorem C16_strict_mode_amount_invariant_witness :
    SigLockedSingleOutput.Serialize sampleExternals 0
        { Address := sampleEd25519, Amount := 2779530283277762 } DeSeriModePerformValidation
      = { sum := 0, data := [], err := some (.ErrOutputDepositsMoreThanTotalSupply (-1)) } :=
  (C16_strict_mode_amount_invariant sampleExternals 0 DeSeriModePerformValidation
    (by decide)).2.2.2.1 { Address := sampleEd25519, Amount := 2779530283277762 } (by decide)

/-! ## The running sum -/

theorem depositCall_sum_le (c : Externals) (sum : Nat) (index : Int)
    (dep : SigLockedSingleOutput) (h : sum ≤ c.TokenSupply) :
    (OutputsDepositAmountValidator.call c sum index dep).1 ≤ c.TokenSupply := by
  unfold OutputsDepositAmountValidator.call
  split_ifs
  all_goals first | exact h | (dsimp only; omega)

theorem invokeAll_withSum (c : Externals) :
    ∀ (calls : List (Int × SigLockedSingleOutput)) (sum : Nat), sum ≤ c.TokenSupply →
      ∃ sum1, ((OutputsDepositAmountValidator.withSum c sum).invokeAll calls).1
          = OutputsDepositAmountValidator.withSum c sum1 ∧ sum1 ≤ c.TokenSupply := by
  intro calls
  induction calls with
  | nil => intro sum h; exact ⟨sum, rfl, h⟩
  | cons call rest ih =>
    intro sum h
    obtain ⟨index, dep⟩ := call
    rw [OutputsValidatorFunc.invokeAll, withSum_invoke]
    exact ih _ (depositCall_sum_le c sum index dep h)

theorem depositCall_sum_error_iff (c : Externals) (hts : c.TokenSupply < 2 ^ 63) (sum : Nat)
    (hsum : sum ≤ c.TokenSupply) (index : Int) (dep : SigLockedSingleOutput) :
    (OutputsDepositAmountValidator.call c sum index dep).2
        = some (.ErrOutputsSumExceedsTotalSupply index) ↔
      dep.Amount ≠ 0 ∧ dep.Amount ≤ c.TokenSupply ∧ c.TokenSupply < sum + dep.Amount := by
  unfold OutputsDepositAmountValidator.call
  by_cases h0 : dep.Amount = 0
  · simp [h0]
  · by_cases h1 : dep.Amount > c.TokenSupply
    · rw [if_neg h0, if_pos h1]
      simp only [Option.some.injEq, reduceCtorEq, false_iff]
      omega
    · have hmod : (sum + dep.Amount) % 2 ^ 64 = sum + dep.Amount :=
        Nat.mod_eq_of_lt (by omega)
      rw [if_neg h0, if_neg h1, hmod]
      split_ifs with h2 h3
      · simp only [true_iff]
        omega
      · simp only [reduceCtorEq, false_iff]
        omega
      · simp only [reduceCtorEq, false_iff]
        omega

/-- C18: every state that a deposit amount validator reaches from the fresh
one, by any calls with any indices and records, has a sum of at most
`TokenSupply`; and for a supply below 2^63 the `uint64` addition of the
cumulative check, which is made for amounts of at most `TokenSupply`, does
not wrap in such a state: it is the exact sum, and the cumulative error is
returned exactly when the exact sum exceeds `TokenSupply`. -/
theorem C18_running_total_does_not_wrap (c : Externals) (hts : c.TokenSupply < 2 ^ 63)
    (calls : List (Int × SigLockedSingleOutput)) :
    ∃ sum, ((OutputsDepositAmountValidator c).invokeAll calls).1
        = OutputsDepositAmountValidator.withSum c sum ∧
      sum ≤ c.TokenSupply ∧
      (∀ dep : SigLockedSingleOutput, dep.Amount ≤ c.TokenSupply →
        sum + dep.Amount < 2 ^ 64 ∧ (sum + dep.Amount) % 2 ^ 64 = sum + dep.Amount) ∧
      (∀ (index : Int) (dep : SigLockedSingleOutput),
        (OutputsDepositAmountValidator.call c sum index dep).2
            = some (.ErrOutputsSumExceedsTotalSupply index) ↔
          dep.Amount ≠ 0 ∧ dep.Amount ≤ c.TokenSupply ∧ c.TokenSupply < sum + dep.Amount) := by
  obtain ⟨sum, hs, hle⟩ := invokeAll_withSum c calls 0 (Nat.zero_le _)
  refine ⟨sum, hs, hle, ?_, ?_⟩
  · intro dep hdep
    have hlt : sum + dep.Amount < 2 ^ 64 := by omega
    exact ⟨hlt, Nat.mod_eq_of_lt hlt⟩
  · intro index dep
    exact depositCall_sum_error_iff c hts sum hle index dep

/-- C18 at the sample instance: after two accumulating calls the sum is 7. -/
theorem C18_running_total_does_not_wrap_witness :
    ∃ sum, ((OutputsDepositAmountValidator sampleExternals).invokeAll
          [(0, { Address := sampleEd25519, Amount := 3 }),
           (1, { Address := sampleWOTS, Amount := 4 })]).1
        = OutputsDepositAmountValidator.withSum sampleExternals sum ∧
      sum ≤ 2779530283277761 :=
  (C18_running_total_does_not_wrap sampleExternals (by decide)
    [(0, { Address := sampleEd25519, Amount := 3 }),
     (1, { Address := sampleWOTS, Amount := 4 })]).imp (fun _ h => ⟨h.1, h.2.1⟩)

theorem deposit_loop_ok_iff (c : Externals) (hts : c.TokenSupply < 2 ^ 63) :
    ∀ (deps : List SigLockedSingleOutput) (i sum : Nat), sum ≤ c.TokenSupply →
      ((ValidateOutputs.loop i (deps.map (·.toSerializable))
          [OutputsDepositAmountValidator.withSum c sum]).2 = none ↔
        (∀ d ∈ deps, 0 < d.Amount) ∧ sum + (deps.map (·.Amount)).sum ≤ c.TokenSupply) := by
  intro deps
  induction deps with
  | nil =>
    intro i sum hsum
    simp [ValidateOutputs.loop, hsum]
  | cons d ds ih =>
    intro i sum hsum
    rw [List.map_cons, loop_cons_single, withSum_invoke]
    have hi : ((i : Nat) : Int) ≠ -1 := by omega
    simp only [List.map_cons, List.sum_cons, List.mem_cons, forall_eq_or_imp]
    cases hc : (OutputsDepositAmountValidator.call c sum (i : Int) d).2 with
    | some e =>
      have hnot := (depositCall_ok_iff c sum (i : Int) d).not.1 (by rw [hc]; simp)
      simp only [reduceCtorEq, false_iff]
      intro hall
      apply hnot
      have hd : d.Amount ≤ c.TokenSupply := by
        have := Nat.zero_le (ds.map (·.Amount)).sum
        omega
      refine ⟨by omega, hd, ?_⟩
      rw [Nat.mod_eq_of_lt (by omega)]
      have := Nat.zero_le (ds.map (·.Amount)).sum
      omega
    | none =>
      have hok := (depositCall_ok_iff c sum (i : Int) d).1 hc
      have hmod : (sum + d.Amount) % 2 ^ 64 = sum + d.Amount := Nat.mod_eq_of_lt (by omega)
      have hs := depositCall_ok_sum c sum (i : Int) d hi hc
      rw [hmod] at hs hok
      dsimp only
      rw [hs, ih (i + 1) (sum + d.Amount) hok.2.2]
      constructor
      · intro h
        exact ⟨⟨by omega, h.1⟩, by omega⟩
      · intro h
        exact ⟨h.1.2, by omega⟩

/-- C19: for a supply below 2^63, `ValidateOutputs` with one fresh deposit
amount validator succeeds on a sequence of outputs exactly when every amount
is greater than 0 and the exact sum of all amounts is at most `TokenSupply`. -/
theorem C19_batch_amount_validation (c : Externals) (hts : c.TokenSupply < 2 ^ 63)
    (deps : List SigLockedSingleOutput) :
    (ValidateOutputs (deps.map (·.toSerializable)) [OutputsDepositAmountValidator c]).2 = none ↔
      (∀ d ∈ deps, 0 < d.Amount) ∧ (deps.map (·.Amount)).sum ≤ c.TokenSupply := by
  have := deposit_loop_ok_iff c hts deps 0 0 (Nat.zero_le _)
  simpa [ValidateOutputs, OutputsDepositAmountValidator] using this

/-- C19 at the sample instance: the supply split over two outputs passes. -/
theorem C19_batch_amount_validation_witness :
    (ValidateOutputs
        [.SigLockedSingleOutput sampleEd25519 2779530283277760,
         .SigLockedSingleOutput sampleWOTS 1]
        [OutputsDepositAmountValidator sampleExternals]).2 = none :=
  (C19_batch_amount_validation sampleExternals (by decide)
    [{ Address := sampleEd25519, Amount := 2779530283277760 },
     { Address := sampleWOTS, Amount := 1 }]).2 ⟨by decide, by decide⟩

/-! ## Addresses of other kinds -/

theorem key_of_unknown (a : Serializable) (h : a.IsKnownAddress = false) :
    OutputsAddrUniqueValidator.key a = [] := by
  cases a with
  | WOTSAddress raw => cases h
  | Ed25519Address raw => cases h
  | SigLockedSingleOutput a n => rfl
  | other id => rfl

theorem unique_fail_at (deps : List SigLockedSingleOutput) (i j : Nat) (k : List Byte)
    (hij : i < j)
    (hi : (deps.map (fun d => OutputsAddrUniqueValidator.key d.Address))[i]? = some k)
    (hj : (deps.map (fun d => OutputsAddrUniqueValidator.key d.Address))[j]? = some k)
    (hnd : ((deps.map (fun d => OutputsAddrUniqueValidator.key d.Address)).take j).Nodup) :
    (ValidateOutputs (deps.map (·.toSerializable)) [OutputsAddrUniqueValidator]).2
      = some (.ErrOutputAddrNotUnique i j) := by
  have hki : ((deps.map (fun d => OutputsAddrUniqueValidator.key d.Address)).take j)[i]?
      = some k := by
    rw [List.getElem?_take_of_lt hij, hi]
  rcases List.getElem?_eq_some.1 hki with ⟨hilt, hival⟩
  have hmem : k ∈ (deps.map (fun d => OutputsAddrUniqueValidator.key d.Address)).take j := by
    rw [← hival]; exact List.getElem_mem hilt
  have := unique_loop_fail deps [] [] j k AddrSet.holds_nil hj (by simpa using hnd)
    (by simpa using hmem)
  simp only [List.length_nil, List.nil_append] at this
  unfold ValidateOutputs OutputsAddrUniqueValidator
  rw [this]
  have hfi : firstIndex k (deps.map (fun d => OutputsAddrUniqueValidator.key d.Address)) = i := by
    conv_lhs =>
      rw [← List.take_append_drop j
        (deps.map (fun d => OutputsAddrUniqueValidator.key d.Address))]
    rw [firstIndex_append_of_mem _ _ _ hmem, ← hival]
    exact firstIndex_getElem_of_nodup _ hnd i hilt
  rw [hfi]
  simp

theorem unique_loop_error_kind :
    ∀ (outputs : List Serializable) (i : Nat) (set : AddrSet),
      (ValidateOutputs.loop i outputs [OutputsAddrUniqueValidator.withSet set]).2 = none ∨
      (ValidateOutputs.loop i outputs [OutputsAddrUniqueValidator.withSet set]).2
        = some .ErrUnknownOutputType ∨
      ∃ a b, (ValidateOutputs.loop i outputs [OutputsAddrUniqueValidator.withSet set]).2
        = some (.ErrOutputAddrNotUnique a b) := by
  intro outputs
  induction outputs with
  | nil => intro i set; exact Or.inl rfl
  | cons x xs ih =>
    intro i set
    rw [ValidateOutputs.loop]
    cases hx : x.asSigLockedSingleOutput with
    | none => exact Or.inr (Or.inl rfl)
    | some dep =>
      dsimp only
      simp only [ValidateOutputs.inner, withSet_invoke]
      cases hl : List.lookup (OutputsAddrUniqueValidator.key dep.Address) set with
      | none =>
        have hc : OutputsAddrUniqueValidator.call set (i : Int) dep
            = ((OutputsAddrUniqueValidator.key dep.Address, (i : Int)) :: set, none) := by
          unfold OutputsAddrUniqueValidator.call
          simp only [hl]
        simp only [hc]
        exact ih (i + 1) _
      | some j =>
        have hc : OutputsAddrUniqueValidator.call set (i : Int) dep
            = (set, some (.ErrOutputAddrNotUnique j (i : Int))) := by
          unfold OutputsAddrUniqueValidator.call
          simp only [hl]
        simp only [hc]
        exact Or.inr (Or.inr ⟨j, i, rfl⟩)

theorem unique_loop_outputs_error_kind :
    ∀ (deps : List SigLockedSingleOutput) (i : Nat) (set : AddrSet),
      (ValidateOutputs.loop i (deps.map (·.toSerializable))
          [OutputsAddrUniqueValidator.withSet set]).2 = none ∨
      ∃ a b, (ValidateOutputs.loop i (deps.map (·.toSerializable))
          [OutputsAddrUniqueValidator.withSet set]).2
        = some (.ErrOutputAddrNotUnique a b) := by
  intro deps
  induction deps with
  | nil => intro i set; exact Or.inl rfl
  | cons d ds ih =>
    intro i set
    rw [List.map_cons, loop_cons_single, withSet_invoke]
    cases hl : List.lookup (OutputsAddrUniqueValidator.key d.Address) set with
    | none =>
      have hc : OutputsAddrUniqueValidator.call set (i : Int) d
          = ((OutputsAddrUniqueValidator.key d.Address, (i : Int)) :: set, none) := by
        unfold OutputsAddrUniqueValidator.call
        simp only [hl]
      simp only [hc]
      exact ih (i + 1) _
    | some j =>
      have hc : OutputsAddrUniqueValidator.call set (i : Int) d
          = (set, some (.ErrOutputAddrNotUnique j (i : Int))) := by
        unfold OutputsAddrUniqueValidator.call
        simp only [hl]
      simp only [hc]
      exact Or.inr ⟨j, i, rfl⟩

/-- C20: two outputs whose addresses are of kinds other than WOTS and Ed25519
both get the empty key from the uniqueness validator, whether or not the
addresses differ; a pass over the two fails on the second with the
duplicate-address error naming 0 and 1; in any pass that holds them at
indices `i < j` the pass fails with a duplicate-address error, which names
`i` and `j` when no key repeats before `j`; and no pass returns the
unknown-address-kind error. -/
theorem C20_unmatched_kinds_share_the_empty_key (d₁ d₂ : SigLockedSingleOutput)
    (h₁ : d₁.Address.IsKnownAddress = false) (h₂ : d₂.Address.IsKnownAddress = false) :
    OutputsAddrUniqueValidator.key d₁.Address = [] ∧
    OutputsAddrUniqueValidator.key d₂.Address = [] ∧
    (ValidateOutputs [d₁.toSerializable, d₂.toSerializable] [OutputsAddrUniqueValidator]).2
      = some (.ErrOutputAddrNotUnique 0 1) ∧
    (∀ (deps : List SigLockedSingleOutput) (i j : Nat), i < j →
      deps[i]? = some d₁ → deps[j]? = some d₂ →
      ((deps.map (fun d => OutputsAddrUniqueValidator.key d.Address)).take j).Nodup →
      (ValidateOutputs (deps.map (·.toSerializable)) [OutputsAddrUniqueValidator]).2
        = some (.ErrOutputAddrNotUnique i j)) ∧
    (∀ (deps : List SigLockedSingleOutput) (i j : Nat), i < j →
      deps[i]? = some d₁ → deps[j]? = some d₂ →
      ∃ a b, (ValidateOutputs (deps.map (·.toSerializable)) [OutputsAddrUniqueValidator]).2
        = some (.ErrOutputAddrNotUnique a b)) ∧
    (∀ outputs : List Serializable,
      (ValidateOutputs outputs [OutputsAddrUniqueValidator]).2 ≠ some .ErrUnknownAddrType) := by
  have hk₁ := key_of_unknown _ h₁
  have hk₂ := key_of_unknown _ h₂
  have hkey : ∀ (deps : List SigLockedSingleOutput) (n : Nat) (d : SigLockedSingleOutput),
      deps[n]? = some d →
      (deps.map (fun d => OutputsAddrUniqueValidator.key d.Address))[n]?
        = some (OutputsAddrUniqueValidator.key d.Address) := by
    intro deps n d hd
    rw [List.getElem?_map, hd]
    rfl
  refine ⟨hk₁, hk₂, ?_, ?_, ?_, ?_⟩
  · have := unique_fail_at [d₁, d₂] 0 1 [] (by decide) (by simp [hk₁]) (by simp [hk₂])
      (by simp)
    simpa using this
  · intro deps i j hij hi hj hnd
    exact unique_fail_at deps i j [] hij (hk₁ ▸ hkey deps i d₁ hi) (hk₂ ▸ hkey deps j d₂ hj) hnd
  · intro deps i j hij hi hj
    rcases unique_loop_outputs_error_kind deps 0 [] with hnone | herr
    · exfalso
      have hiff := unique_loop_ok_iff deps [] [] AddrSet.holds_nil List.nodup_nil
      simp only [List.length_nil, List.nil_append] at hiff
      have hnd := hiff.1 hnone
      have hjlt : j < (deps.map (fun d => OutputsAddrUniqueValidator.key d.Address)).length := by
        rw [List.length_map]
        exact (List.getElem?_eq_some.1 hj).1
      have hne := List.nodup_iff_getElem?_ne_getElem?.1 hnd i j hij hjlt
      apply hne
      rw [hkey deps i d₁ hi, hkey deps j d₂ hj, hk₁, hk₂]
    · exact herr
  · intro outputs
    rcases unique_loop_error_kind outputs 0 [] with h | h | ⟨a, b, h⟩
    · unfold ValidateOutputs OutputsAddrUniqueValidator
      rw [h]; simp
    · unfold ValidateOutputs OutputsAddrUniqueValidator
      rw [h]; simp
    · unfold ValidateOutputs OutputsAddrUniqueValidator
      rw [h]; simp

/-- C20 at a pass over two outputs whose addresses are two different values
of another kind. -/
theorem C20_unmatched_kinds_share_the_empty_key_witness :
    (ValidateOutputs
        [.SigLockedSingleOutput (.other 1) 5, .SigLockedSingleOutput (.other 2) 6]
        [OutputsAddrUniqueValidator]).2
      = some (.ErrOutputAddrNotUnique 0 1) :=
  (C20_unmatched_kinds_share_the_empty_key { Address := .other 1, Amount := 5 }
    { Address := .other 2, Amount := 6 } rfl rfl).2.2.1

end Iota
